import Mathlib

/-!
Verification development for the 10-K risk-evolution pipeline.

The Python sources are shallowly embedded: texts are lists of characters,
floats are modelled as rationals, `re` patterns are compiled by hand into
deterministic scanners (the concrete patterns used by the code have disjoint
character classes at every greedy boundary, so backtracking never changes the
outcome), and `difflib.SequenceMatcher` is embedded in full (run-length DP,
best-block scan, the four extension loops, auto-junk popularity purge).
Whitespace is modelled as the ASCII whitespace set.
-/

abbrev Str := List Char

/-- ASCII model of the whitespace class used by the Python regexes and strips. -/
def isWsChar (c : Char) : Bool :=
  c == ' ' || c == '\t' || c == '\n' || c == '\r' || c == '\x0b' || c == '\x0c'

/-- Decimal digit test, mirroring the regex digit class. -/
def isDigitChar (c : Char) : Bool :=
  '0' ≤ c && c ≤ '9'

/-- The punctuation-or-space class appearing in the Item patterns of
`src/core/extractor.py` (period, colon, whitespace, em dash, en dash, hyphen). -/
def isClsChar (c : Char) : Bool :=
  c == '.' || c == ':' || isWsChar c || c == '—' || c == '–' || c == '-'

/-- Leader-line class of `_clean_text` (period, whitespace, underscore,
hyphen, en dash, em dash). -/
def isLeaderChar (c : Char) : Bool :=
  c == '.' || isWsChar c || c == '_' || c == '-' || c == '–' || c == '—'

/-- Case-insensitive literal consumption: on success returns the rest of the
input after the (lower-cased) pattern. -/
def eatCI : Str → Str → Option Str
  | [], s => some s
  | _ :: _, [] => none
  | p :: ps, c :: cs => if c.toLower == p then eatCI ps cs else none

/-- Consume a maximal run of characters satisfying `p`; returns the run length
and the rest. -/
def spanP (p : Char → Bool) (s : Str) : Nat × Str :=
  ((s.takeWhile p).length, s.dropWhile p)

/-- Case-sensitive literal test at the front of a list. -/
def beginsWith : Str → Str → Bool
  | [], _ => true
  | _ :: _, [] => false
  | p :: ps, c :: cs => p == c && beginsWith ps cs

/-- Python-style substring containment (`pat in s`). -/
def containsSub : Str → Str → Bool
  | s, pat =>
    if beginsWith pat s then true
    else
      match s with
      | [] => false
      | _ :: t => containsSub t pat

/-- Strip ASCII whitespace from both ends (model of `str.strip()`). -/
def stripChars (s : Str) : Str :=
  ((s.dropWhile isWsChar).reverse.dropWhile isWsChar).reverse

/-- Split a list on a separator character (model of `str.split("\n")`). -/
def splitOnChar (sep : Char) : Str → List Str
  | [] => [[]]
  | c :: cs =>
    if c == sep then [] :: splitOnChar sep cs
    else
      match splitOnChar sep cs with
      | [] => [[c]]
      | h :: t => (c :: h) :: t

/-- Model of `re.sub(r"\n{3,}", "\n\n", s)`: every maximal newline run of
length at least three is replaced by exactly two newlines. -/
def collapse3Aux : Nat → Str → Str
  | nl, [] => List.replicate (min nl 2) '\n'
  | nl, c :: rest =>
    if c == '\n' then collapse3Aux (nl + 1) rest
    else List.replicate (min nl 2) '\n' ++ c :: collapse3Aux 0 rest

def collapse3 (s : Str) : Str := collapse3Aux 0 s

/-- Model of `re.sub(r"[ \t]+", " ", s)`. -/
def normSpacesAux : Bool → Str → Str
  | pending, [] => if pending then [' '] else []
  | pending, c :: rest =>
    if c == ' ' || c == '\t' then normSpacesAux true rest
    else (if pending then [' '] else []) ++ c :: normSpacesAux false rest

def normSpaces (s : Str) : Str := normSpacesAux false s

/-- Model of `str.split()` (split on whitespace runs, dropping empties). -/
def pySplitAux : Str → Str → List Str
  | [], acc => if acc.isEmpty then [] else [acc.reverse]
  | c :: rest, acc =>
    if isWsChar c then
      if acc.isEmpty then pySplitAux rest [] else acc.reverse :: pySplitAux rest []
    else pySplitAux rest (c :: acc)

def pySplit (s : Str) : List Str := pySplitAux s []

/-! Regex scanners.  Each `...Len` function returns the length of the unique
match anchored at the front of the input, if any. -/

/-- Match length of `_ITEM1A_START = item\s*1\s*a[\.\:\s—–-]+\s*risk\s+factors`
(case-insensitive) at the front of `s`. -/
def item1aStartLen (s : Str) : Option Nat :=
  (eatCI ("item".data) s).bind fun s1 =>
  let (_, s2) := spanP isWsChar s1
  (eatCI ("1".data) s2).bind fun s3 =>
  let (_, s4) := spanP isWsChar s3
  (eatCI ("a".data) s4).bind fun s5 =>
  let (k, s6) := spanP isClsChar s5
  if k == 0 then none else
  (eatCI ("risk".data) s6).bind fun s7 =>
  let (w, s8) := spanP isWsChar s7
  if w == 0 then none else
  (eatCI ("factors".data) s8).map fun s9 => s.length - s9.length

/-- Match length of `item\s*\d` (case-insensitive) at the front of `s`,
used by `_is_toc_region` and the `item N` line filter of `_clean_text`. -/
def itemDigitLen (s : Str) : Option Nat :=
  (eatCI ("item".data) s).bind fun s1 =>
  let (_, s2) := spanP isWsChar s1
  match s2 with
  | c :: _ => if isDigitChar c then some (s.length - s2.length + 1) else none
  | [] => none

/-- Match length of the `_ITEM1A_END` pattern `item\s*1\s*b[\.\:\s—–-]`. -/
def end1bLen (s : Str) : Option Nat :=
  (eatCI ("item".data) s).bind fun s1 =>
  let (_, s2) := spanP isWsChar s1
  (eatCI ("1".data) s2).bind fun s3 =>
  let (_, s4) := spanP isWsChar s3
  (eatCI ("b".data) s4).bind fun s5 =>
  match s5 with
  | c :: _ => if isClsChar c then some (s.length - s5.length + 1) else none
  | [] => none

/-- Match length of the `_ITEM1A_END` pattern `item\s*2[\.\:\s—–-]`. -/
def end2Len (s : Str) : Option Nat :=
  (eatCI ("item".data) s).bind fun s1 =>
  let (_, s2) := spanP isWsChar s1
  (eatCI ("2".data) s2).bind fun s3 =>
  match s3 with
  | c :: _ => if isClsChar c then some (s.length - s3.length + 1) else none
  | [] => none

/-- Model of `re.finditer`: non-overlapping matches, scanning left to right;
returns a list of `(start, end)` character offsets.  The `fuel` argument is
the scan budget; `input.length + 1` always suffices since every step consumes
at least one character. -/
def reFinditer (mlen : Str → Option Nat) : Nat → Str → Nat → List (Nat × Nat)
  | 0, _, _ => []
  | _ + 1, [], _ => []
  | fuel + 1, s@(_ :: rest), pos =>
    match mlen s with
    | some L => (pos, pos + L) :: reFinditer mlen fuel (s.drop L) (pos + L)
    | none => reFinditer mlen fuel rest (pos + 1)

/-- All matches of a pattern in a text, from offset 0. -/
def reMatches (mlen : Str → Option Nat) (text : Str) : List (Nat × Nat) :=
  reFinditer mlen (text.length + 1) text 0

/-! Section Locator (`src/core/extractor.py`). -/

/-- Embedding of `_is_toc_region`: more than five `item\s*\d` occurrences in
the first 2000 characters. -/
def _is_toc_region (text : Str) : Bool :=
  5 < (reMatches itemDigitLen (text.take 2000)).length

/-- Start matches of `_ITEM1A_START` in a text. -/
def item1aMatches (text : Str) : List (Nat × Nat) :=
  reMatches item1aStartLen text

/-- Whether the 2000-character window at a start match looks like a table of
contents (the rejection test of `_locate_item1a_range`). -/
def tocWindow (text : Str) (m : Nat × Nat) : Bool :=
  _is_toc_region ((text.drop m.1).take 2000)

/-- The accepted start offset of `_locate_item1a_range`: the end of the first
start match whose window is not TOC-like, else the end of the last match. -/
def startPosOf (text : Str) : Nat :=
  match (item1aMatches text).find? (fun m => !tocWindow text m) with
  | some m => m.2
  | none => ((item1aMatches text).getLastD (0, 0)).2

/-- The 200-character context preceding offset `p` (`text[max(0,p-200):p]`). -/
def preContext (text : Str) (p : Nat) : Str :=
  (text.drop (p - 200)).take (p - (p - 200))

/-- End-match acceptance test of `_locate_item1a_range`: strictly more than
500 characters past the start, and the preceding context is not TOC-like. -/
def endOk (text : Str) (startPos : Nat) (m : Nat × Nat) : Bool :=
  (decide (startPos + 500 < m.1)) && !_is_toc_region (preContext text m.1)

/-- The end offset of `_locate_item1a_range`: the document length, lowered by
the first acceptable match of each end pattern in turn. -/
def endPosOf (text : Str) (startPos : Nat) : Nat :=
  let e0 := text.length
  let e1 :=
    match (reMatches end1bLen text).find? (endOk text startPos) with
    | some m => min e0 m.1
    | none => e0
  match (reMatches end2Len text).find? (endOk text startPos) with
  | some m => min e1 m.1
  | none => e1

/-- Embedding of `_locate_item1a_range`. -/
def _locate_item1a_range (text : Str) : Option (Nat × Nat) :=
  if item1aMatches text = [] then none
  else some (startPosOf text, endPosOf text (startPosOf text))

/-! Text cleaner and paragraph machinery (`_clean_text`,
`_extract_risks_from_text_fallback` in `src/core/extractor.py`). -/

/-- Page-number line test of `_clean_text`: `^[\dF][\d\-]*$`. -/
def isPageNumLine (s : Str) : Bool :=
  match s with
  | [] => false
  | c :: rest =>
    (isDigitChar c || c == 'F') && rest.all (fun d => isDigitChar d || d == '-')

/-- Leader line test of `_clean_text`: `^[\.\s_\-–—]{5,}$`. -/
def isLeaderLine (s : Str) : Bool :=
  5 ≤ s.length && s.all isLeaderChar

/-- Embedding of `_clean_text`: strip each line, drop page numbers, short
`item N` lines and leader lines, keep blank lines, then collapse newline runs
and strip the result. -/
def _clean_text (text : Str) : Str :=
  let lines := splitOnChar '\n' text
  let out := lines.filterMap (fun ln =>
    let s := stripChars ln
    if s.isEmpty then some []
    else if isPageNumLine s then none
    else if (itemDigitLen s).isSome && s.length < 60 then none
    else if isLeaderLine s then none
    else some s)
  stripChars (collapse3 (List.intercalate ['\n'] out))

/-- Index of the last newline in a list, if any. -/
def lastNlIdx (l : Str) : Option Nat :=
  (l.foldl (fun (st : Nat × Option Nat) c =>
    (st.1 + 1, if c == '\n' then some st.1 else st.2)) (0, none)).2

/-- Match length of the separator pattern `\n\s*\n` at the front of `s`
(greedy: up to the last newline of the maximal whitespace run). -/
def blankSepLen (s : Str) : Option Nat :=
  match s with
  | [] => none
  | c :: rest =>
    if c == '\n' then
      match lastNlIdx (rest.takeWhile isWsChar) with
      | some i => some (i + 2)
      | none => none
    else none

/-- Model of `re.split(r"\n\s*\n", s)`. -/
def blankSplitAux : Nat → Str → Str → List Str
  | 0, acc, _ => [acc.reverse]
  | _ + 1, acc, [] => [acc.reverse]
  | fuel + 1, acc, s@(c :: rest) =>
    match blankSepLen s with
    | some L => acc.reverse :: blankSplitAux fuel [] (s.drop L)
    | none => blankSplitAux fuel (c :: acc) rest

def blankSplit (s : Str) : List Str := blankSplitAux (s.length + 1) [] s

/-- One extracted risk group: a category header and its sub-risk texts. -/
structure Risk where
  category : Str
  sub_risks : List Str
deriving DecidableEq, Repr

/-- The cleaned Item 1A section used by the text fallback extractor (empty if
the section was not located). -/
def fbCleaned (text : Str) : Str :=
  match _locate_item1a_range text with
  | none => []
  | some (s, e) => _clean_text ((text.drop s).take (e - s))

/-- The surviving paragraphs of the text fallback extractor: blank-line split,
stripped, and kept only when strictly longer than 40 characters. -/
def fbParas (text : Str) : List Str :=
  ((blankSplit (fbCleaned text)).map stripChars).filter (fun p => 40 < p.length)

/-- Sub-risk title openers tested by `_extract_risks_from_text_fallback`
(case-sensitive `str.startswith`). -/
def riskOpeners : List Str :=
  [("The Company".data), ("The ".data), ("Our ".data), ("We ".data),
   ("Adverse".data), ("Changes".data), ("Failure".data), ("If ".data),
   ("A ".data), ("Expectations".data), ("Future".data)]

/-- One step of the category/sub-risk heuristic loop. -/
def fbStep (st : List Risk × Str × List Str) (p : Str) : List Risk × Str × List Str :=
  let (risks, cat, subs) := st
  if p.length < 80 && !(p.getLastD ' ' == '.') && !(p.getLastD ' ' == ',') then
    (if subs.isEmpty then risks else risks ++ [⟨cat, subs⟩], p, [])
  else if p.length < 400 && riskOpeners.any (fun o => beginsWith o p) then
    (risks, cat, subs ++ [p])
  else if p.length < 250 then
    (risks, cat, subs ++ [p])
  else st

/-- Embedding of `_extract_risks_from_text_fallback`. -/
def _extract_risks_from_text_fallback (text : Str) : List Risk :=
  match _locate_item1a_range text with
  | none => []
  | some _ =>
    let cleaned := fbCleaned text
    if cleaned.length < 100 then []
    else
      let paras := fbParas text
      if paras.isEmpty then []
      else
        let (risks0, cat, subs) := paras.foldl fbStep ([], ("Risk Factors".data), [])
        let risks := if subs.isEmpty then risks0 else risks0 ++ [⟨cat, subs⟩]
        if risks.isEmpty && !paras.isEmpty then
          [⟨("Risk Factors".data), (paras.take 30).filter (fun p => p.length < 400)⟩]
        else risks

/-! The MVP extractor of `src/functions/extract_item1a.py`.  The function is
embedded from its text-processing body; its input is the text produced by the
HTML-to-text step (`soup.get_text` followed by the newline collapse), which is
the identity on plain text. -/

/-- Match length of `ITEM\s+1A\.*\s+RISK\s+FACTORS` (case-insensitive). -/
def mvpStartLen (s : Str) : Option Nat :=
  (eatCI ("item".data) s).bind fun s1 =>
  let (w1, s2) := spanP isWsChar s1
  if w1 == 0 then none else
  (eatCI ("1a".data) s2).bind fun s3 =>
  let (_, s4) := spanP (fun c => c == '.') s3
  let (w2, s5) := spanP isWsChar s4
  if w2 == 0 then none else
  (eatCI ("risk".data) s5).bind fun s6 =>
  let (w3, s7) := spanP isWsChar s6
  if w3 == 0 then none else
  (eatCI ("factors".data) s7).map fun s8 => s.length - s8.length

/-- Match length of `ITEM\s+1B\.*` (case-insensitive). -/
def mvpEnd1bLen (s : Str) : Option Nat :=
  (eatCI ("item".data) s).bind fun s1 =>
  let (w1, s2) := spanP isWsChar s1
  if w1 == 0 then none else
  (eatCI ("1b".data) s2).map fun s3 =>
  let (d, _) := spanP (fun c => c == '.') s3
  s.length - s3.length + d

/-- Match length of `ITEM\s+2\.*` (case-insensitive). -/
def mvpEnd2Len (s : Str) : Option Nat :=
  (eatCI ("item".data) s).bind fun s1 =>
  let (w1, s2) := spanP isWsChar s1
  if w1 == 0 then none else
  (eatCI ("2".data) s2).map fun s3 =>
  let (d, _) := spanP (fun c => c == '.') s3
  s.length - s3.length + d

/-- Embedding of `extract_item_1a_text` (post-HTML text body): normalize
whitespace, locate the section by regex windows, and on a missing anchor fall
back to the first 12000 characters tagged `locator=FALLBACK_TOP`. -/
def extract_item_1a_text (text : Str) : Str × Str :=
  let t1 := collapse3 text
  let norm := normSpaces t1
  match (reMatches mvpStartLen norm).head? with
  | none => (norm.take 12000, ("locator=FALLBACK_TOP".data))
  | some m =>
    let s := m.1
    let sub := norm.drop s
    let e :=
      match (reMatches mvpEnd1bLen sub).head? with
      | some m2 => s + m2.1
      | none =>
        match (reMatches mvpEnd2Len sub).head? with
        | some m2 => s + m2.1
        | none => min norm.length (s + 40000)
    let item1a := stripChars ((norm.drop s).take (e - s))
    (item1a,
      ("locator=regex_window[".data) ++ (Nat.repr s).data ++ (":".data)
        ++ (Nat.repr e).data ++ ("]".data))

/-! Embedding of `difflib.SequenceMatcher` (as called with `isjunk=None` and
default `autojunk=True` by `src/core/comparator.py` and
`src/functions/compare.py`).  `runLen va i j` is the value the row dictionary
`j2len` holds at key `j` after processing row `i`: the length of the match run
ending at `(i, j)` through cells accepted by `va`. -/

def runLen (va : Nat → Nat → Bool) : Nat → Nat → Nat
  | 0, j => if va 0 j then 1 else 0
  | i + 1, 0 => if va (i + 1) 0 then 1 else 0
  | i + 1, j + 1 => if va (i + 1) (j + 1) then runLen va i j + 1 else 0

/-- One candidate-cell step of the best-block scan: update the best triple
when the run ending here is strictly longer. -/
def dpStep (va : Nat → Nat → Bool) (i : Nat) (best : Nat × Nat × Nat) (j : Nat) :
    Nat × Nat × Nat :=
  let k := runLen va i j
  if best.2.2 < k then (i + 1 - k, j + 1 - k, k) else best

/-- Scan one row: the candidate columns are the positions of `a i` in `b`
within `[blo, bhi)` (after the popularity purge), in ascending order. -/
def dpRow (va : Nat → Nat → Bool) (cols : Nat) (best : Nat × Nat × Nat) (i : Nat) :
    Nat × Nat × Nat :=
  ((List.range cols).filter (fun j => va i j)).foldl (dpStep va i) best

/-- Scan all rows of `find_longest_match`. -/
def dpScan (va : Nat → Nat → Bool) (rows : List Nat) (cols : Nat)
    (best : Nat × Nat × Nat) : Nat × Nat × Nat :=
  rows.foldl (dpRow va cols) best

/-- Backward extension loop (used with the non-junk and junk conditions):
while the cell diagonally before the block satisfies `cond`, grow the block
backwards. -/
def extBack (cond : Nat → Nat → Bool) (alo blo : Nat) : Nat → Nat → Nat → Nat × Nat × Nat
  | 0, bj, bk => (0, bj, bk)
  | bi + 1, bj, bk =>
    if alo ≤ bi && blo < bj && cond bi (bj - 1) then extBack cond alo blo bi (bj - 1) (bk + 1)
    else (bi + 1, bj, bk)

/-- Forward extension loop: while the cell just past the block satisfies
`cond`, grow the block forwards.  `fuel` is a scan budget (the loop advances
past `bi + bk`, which is capped by `ahi`). -/
def extFwd (cond : Nat → Nat → Bool) (ahi bhi bi bj : Nat) : Nat → Nat → Nat
  | 0, bk => bk
  | fuel + 1, bk =>
    if bi + bk < ahi && bj + bk < bhi && cond (bi + bk) (bj + bk) then
      extFwd cond ahi bhi bi bj fuel (bk + 1)
    else bk

/-- The cell-acceptance predicate of the run DP: indices in range, equal
elements, and the `b`-side element not purged from `b2j` as popular. -/
def vaMatch (a b : Str) (bpop : Char → Bool) (alo ahi blo bhi : Nat)
    (i j : Nat) : Bool :=
  decide (alo ≤ i) && decide (i < ahi) && decide (blo ≤ j) && decide (j < bhi) &&
    (a.getD i ' ' == b.getD j ' ') && !bpop (b.getD j ' ')

/-- Embedding of `SequenceMatcher.find_longest_match` with `isjunk=None`
(so the junk set is empty): run DP, then the non-junk backward and forward
extensions, then the junk extensions (which never fire for an empty junk
set, retained for fidelity). -/
def findLongestMatch (a b : Str) (bpop isbjunk : Char → Bool)
    (alo ahi blo bhi : Nat) : Nat × Nat × Nat :=
  let va := vaMatch a b bpop alo ahi blo bhi
  let best := dpScan va (List.range' alo (ahi - alo)) bhi (alo, blo, 0)
  let eqAt := fun i j => a.getD i ' ' == b.getD j ' '
  let eqNoJunk := fun i j => !isbjunk (b.getD j ' ') && eqAt i j
  let b1 := extBack eqNoJunk alo blo best.1 best.2.1 best.2.2
  let k2 := extFwd eqNoJunk ahi bhi b1.1 b1.2.1 (ahi + 1) b1.2.2
  let eqJunk := fun i j => isbjunk (b.getD j ' ') && eqAt i j
  let b3 := extBack eqJunk alo blo b1.1 b1.2.1 k2
  let k4 := extFwd eqJunk ahi bhi b3.1 b3.2.1 (ahi + 1) b3.2.2
  (b3.1, b3.2.1, k4)

/-- Total size of all matching blocks found by the recursive region
decomposition of `get_matching_blocks` (the only quantity `ratio` needs). -/
def matchSum (a b : Str) (bpop isbjunk : Char → Bool) :
    Nat → Nat → Nat → Nat → Nat → Nat
  | 0, _, _, _, _ => 0
  | fuel + 1, alo, ahi, blo, bhi =>
    let r := findLongestMatch a b bpop isbjunk alo ahi blo bhi
    let i := r.1
    let j := r.2.1
    let k := r.2.2
    if k = 0 then 0
    else
      k + (if alo < i && blo < j then matchSum a b bpop isbjunk fuel alo i blo j else 0)
        + (if i + k < ahi && j + k < bhi then matchSum a b bpop isbjunk fuel (i + k) ahi (j + k) bhi else 0)

/-- The auto-junk popularity predicate: with `len(b) >= 200`, elements
occurring more than `len(b) // 100 + 1` times are purged from `b2j`. -/
def bPopular (b : Str) (c : Char) : Bool :=
  decide (200 ≤ b.length) && decide (b.length / 100 + 1 < b.count c)

/-- Embedding of `SequenceMatcher(None, a, b).ratio()`, with floats modelled
as rationals: `2 * M / (len(a) + len(b))`, and 1 for two empty sequences. -/
def ratioQ (a b : Str) : ℚ :=
  let m := matchSum a b (bPopular b) (fun _ => false)
            (a.length + b.length + 1) 0 a.length 0 b.length
  if a.length + b.length = 0 then 1
  else (2 * m : ℚ) / ((a.length : ℚ) + (b.length : ℚ))

/-- Embedding of `_similarity` from `src/core/comparator.py`:
`difflib.SequenceMatcher(None, a.lower(), b.lower()).ratio()`. -/
def _similarity (a b : Str) : ℚ :=
  ratioQ (a.map Char.toLower) (b.map Char.toLower)

/-- Embedding of `_normalize` from `src/functions/compare.py`:
`" ".join(text.lower().split())`. -/
def _normalize (s : Str) : Str :=
  List.intercalate [' '] (pySplit (s.map Char.toLower))

/-! Diff Engine (`compare_filings` in `src/core/comparator.py`). -/

/-- A risk block as consumed by the comparison code. -/
structure Block where
  block_id : Str
  risk_theme : Str
  title : Str
  risk_text : Str
deriving DecidableEq, Repr

instance : Inhabited Block := ⟨⟨[], [], [], []⟩⟩

/-- One change record of `compare_filings`. -/
structure Change where
  risk_theme : Str
  change_type : Str
  change_score : ℤ
  short_explanation : Str
  latest_block : Option Block
  prior_block : Option Block
deriving DecidableEq, Repr

/-- Python `int()` applied to a rational: truncation toward zero. -/
def intTrunc (q : ℚ) : ℤ :=
  if 0 ≤ q then ⌊q⌋ else -⌊-q⌋

/-- Specification-side model of Python `round` / `format(x, ".0%")` rounding
(round half to even), used to state the spec's claimed score formula and to
render the percent figure of the MODIFIED explanation string. -/
def specRound (q : ℚ) : ℤ :=
  if (1 : ℚ) / 2 < q - ⌊q⌋ then ⌊q⌋ + 1
  else if q - ⌊q⌋ < (1 : ℚ) / 2 then ⌊q⌋
  else if 2 ∣ ⌊q⌋ then ⌊q⌋ else ⌊q⌋ + 1

/-- Candidate pairs of `compare_filings`: `(sim, li, pi)` for every pair with
similarity strictly above the threshold, in enumeration order. -/
def cfCandidates (prior latest : List Block) (thr : ℚ) : List (ℚ × Nat × Nat) :=
  (List.range latest.length).flatMap (fun li =>
    (List.range prior.length).filterMap (fun pi =>
      let sim := _similarity (latest.getD li default).risk_text (prior.getD pi default).risk_text
      if thr < sim then some (sim, li, pi) else none))

/-- The order produced by `candidates.sort(reverse=True)`: descending
lexicographic on the `(sim, li, pi)` tuple. -/
def candLe (x y : ℚ × Nat × Nat) : Prop :=
  y.1 < x.1 ∨ (y.1 = x.1 ∧ (y.2.1 < x.2.1 ∨ (y.2.1 = x.2.1 ∧ y.2.2 ≤ x.2.2)))

instance : DecidableRel candLe := fun x y => by unfold candLe; infer_instance

instance : IsTotal (ℚ × Nat × Nat) candLe := by
  constructor
  intro x y
  unfold candLe
  rcases lt_trichotomy x.1 y.1 with h | h | h
  · exact Or.inr (Or.inl h)
  · rcases lt_trichotomy x.2.1 y.2.1 with h2 | h2 | h2
    · exact Or.inr (Or.inr ⟨h, Or.inl h2⟩)
    · rcases Nat.le_total x.2.2 y.2.2 with h3 | h3
      · exact Or.inr (Or.inr ⟨h, Or.inr ⟨h2, h3⟩⟩)
      · exact Or.inl (Or.inr ⟨h.symm, Or.inr ⟨h2.symm, h3⟩⟩)
    · exact Or.inl (Or.inr ⟨h.symm, Or.inl h2⟩)
  · exact Or.inl (Or.inl h)

instance : IsTrans (ℚ × Nat × Nat) candLe := by
  constructor
  intro a b c hab hbc
  unfold candLe at *
  rcases hab with h1 | ⟨e1, h1⟩
  · rcases hbc with h2 | ⟨e2, _⟩
    · exact Or.inl (h2.trans h1)
    · exact Or.inl (lt_of_le_of_lt (le_of_eq e2) h1)
  · rcases hbc with h2 | ⟨e2, h2⟩
    · exact Or.inl (lt_of_lt_of_le h2 (le_of_eq e1))
    · refine Or.inr ⟨e2.trans e1, ?_⟩
      rcases h1 with h1 | ⟨f1, h1⟩
      · rcases h2 with h2 | ⟨f2, _⟩
        · exact Or.inl (h2.trans h1)
        · exact Or.inl (lt_of_le_of_lt (le_of_eq f2) h1)
      · rcases h2 with h2 | ⟨f2, h2⟩
        · exact Or.inl (lt_of_lt_of_le h2 (le_of_eq f1))
        · exact Or.inr ⟨f2.trans f1, h2.trans h1⟩

/-- The sorted candidate list scanned by the greedy matcher. -/
def cfSorted (prior latest : List Block) (thr : ℚ) : List (ℚ × Nat × Nat) :=
  List.insertionSort candLe (cfCandidates prior latest thr)

/-- One step of the greedy matcher: accept a candidate pair when neither index
is already consumed. -/
def cfGreedyStep (st : List Nat × List Nat × List (Nat × Nat × ℚ))
    (c : ℚ × Nat × Nat) : List Nat × List Nat × List (Nat × Nat × ℚ) :=
  if !(st.1.contains c.2.1) && !(st.2.1.contains c.2.2) then
    (c.2.1 :: st.1, c.2.2 :: st.2.1, st.2.2 ++ [(c.2.1, c.2.2, c.1)])
  else st

/-- The matcher state after scanning all candidates:
`(matched_latest, matched_prior, matches)`. -/
def cfState (prior latest : List Block) (thr : ℚ) :
    List Nat × List Nat × List (Nat × Nat × ℚ) :=
  (cfSorted prior latest thr).foldl cfGreedyStep ([], [], [])

def cfMatchedL (prior latest : List Block) (thr : ℚ) : List Nat :=
  (cfState prior latest thr).1

def cfMatchedP (prior latest : List Block) (thr : ℚ) : List Nat :=
  (cfState prior latest thr).2.1

def cfMatches (prior latest : List Block) (thr : ℚ) : List (Nat × Nat × ℚ) :=
  (cfState prior latest thr).2.2

/-- Latest-side indices that end up as NEW records. -/
def cfNew (prior latest : List Block) (thr : ℚ) : List Nat :=
  (List.range latest.length).filter (fun i => !((cfMatchedL prior latest thr).contains i))

/-- Prior-side indices that end up as REMOVED records. -/
def cfRemoved (prior latest : List Block) (thr : ℚ) : List Nat :=
  (List.range prior.length).filter (fun j => !((cfMatchedP prior latest thr).contains j))

/-- The unsorted change list of `compare_filings` (NEW, then REMOVED, then
MODIFIED for matches below the identical threshold). -/
def cfChanges (prior latest : List Block) (thr idThr : ℚ) : List Change :=
  let newRecs := (cfNew prior latest thr).map (fun i =>
    let lb := latest.getD i default
    { risk_theme := lb.risk_theme, change_type := ("NEW".data), change_score := 90,
      short_explanation := ("New risk disclosed: ".data) ++ lb.title.take 60,
      latest_block := some lb, prior_block := none })
  let remRecs := (cfRemoved prior latest thr).map (fun j =>
    let pb := prior.getD j default
    { risk_theme := pb.risk_theme, change_type := ("REMOVED".data), change_score := 85,
      short_explanation := ("Risk no longer disclosed: ".data) ++ pb.title.take 60,
      latest_block := none, prior_block := some pb })
  let modRecs := ((cfMatches prior latest thr).filter (fun m => m.2.2 < idThr)).map (fun m =>
    let lb := latest.getD m.1 default
    let pb := prior.getD m.2.1 default
    { risk_theme := lb.risk_theme, change_type := ("MODIFIED".data),
      change_score := max (intTrunc ((1 - m.2.2) * 100)) 5,
      short_explanation := ("Language changed (".data)
        ++ (Int.repr (specRound (m.2.2 * 100))).data ++ ("% similar): ".data)
        ++ lb.title.take 50,
      latest_block := some lb, prior_block := some pb })
  newRecs ++ remRecs ++ modRecs

/-- Rank used by the final presentation sort: NEW, then REMOVED, then
MODIFIED. -/
def typeRank (t : Str) : Nat :=
  if t = ("NEW".data) then 0 else if t = ("REMOVED".data) then 1 else 2

/-- The final sort key order `(order[change_type], -change_score)`
(ascending, stable). -/
def changeLe (c d : Change) : Prop :=
  typeRank c.change_type < typeRank d.change_type ∨
    (typeRank c.change_type = typeRank d.change_type ∧ d.change_score ≤ c.change_score)

instance : DecidableRel changeLe := fun c d => by unfold changeLe; infer_instance

instance : IsTotal Change changeLe := by
  constructor
  intro x y
  unfold changeLe
  rcases lt_trichotomy (typeRank x.change_type) (typeRank y.change_type) with h | h | h
  · exact Or.inl (Or.inl h)
  · rcases Int.le_total y.change_score x.change_score with h2 | h2
    · exact Or.inl (Or.inr ⟨h, h2⟩)
    · exact Or.inr (Or.inr ⟨h.symm, h2⟩)
  · exact Or.inr (Or.inl h)

instance : IsTrans Change changeLe := by
  constructor
  intro a b c hab hbc
  unfold changeLe at *
  rcases hab with h1 | ⟨e1, h1⟩
  · rcases hbc with h2 | ⟨e2, _⟩
    · exact Or.inl (h1.trans h2)
    · exact Or.inl (lt_of_lt_of_le h1 (le_of_eq e2))
  · rcases hbc with h2 | ⟨e2, h2⟩
    · exact Or.inl (lt_of_le_of_lt (le_of_eq e1) h2)
    · exact Or.inr ⟨e1.trans e2, h2.trans h1⟩

/-- Embedding of `compare_filings`: greedy matching, change construction,
presentation sort, top-N cap. -/
def compare_filings (prior latest : List Block) (thr idThr : ℚ) (topn : Nat) :
    List Change :=
  (List.insertionSort changeLe (cfChanges prior latest thr idThr)).take topn

/-! MVP comparison (`src/functions/compare.py`). -/

/-- One change record of `compare_reports`. -/
structure CmpChange where
  risk_theme : Str
  change_type : Str
  change_score : ℤ
  short_explanation : Str
  old_text : Option Str
  new_text : Option Str
  latest_block_id : Option Str
  prior_block_id : Option Str
deriving DecidableEq, Repr

/-- Embedding of `_best_match`: difflib ratio on normalized text against every
candidate, keeping the first strict maximum. -/
def _best_match (block : Block) (candidates : List Block) : ℚ × Option Block :=
  let t := _normalize block.risk_text
  candidates.foldl (fun best c =>
    let r := ratioQ t (_normalize c.risk_text)
    if best.1 < r then (r, some c) else best) (0, none)

/-- The NEW / MODIFIED records of `compare_reports` (first loop). -/
def crFirstPass (latest prior : List Block) : List CmpChange :=
  latest.filterMap (fun lb =>
    let sp := _best_match lb prior
    match sp.2 with
    | none => some
      { risk_theme := lb.risk_theme, change_type := ("NEW".data), change_score := 90,
        short_explanation := ("This risk block does not appear in the prior filing (or is substantially different).".data),
        old_text := none, new_text := some lb.risk_text,
        latest_block_id := some lb.block_id, prior_block_id := none }
    | some pb =>
      if sp.1 < (11 / 20 : ℚ) then some
        { risk_theme := lb.risk_theme, change_type := ("NEW".data),
          change_score := intTrunc ((1 - sp.1) * 100),
          short_explanation := ("This risk block does not appear in the prior filing (or is substantially different).".data),
          old_text := none, new_text := some lb.risk_text,
          latest_block_id := some lb.block_id, prior_block_id := none }
      else if sp.1 < (17 / 20 : ℚ) then some
        { risk_theme := lb.risk_theme, change_type := ("MODIFIED".data),
          change_score := intTrunc ((1 - sp.1) * 100),
          short_explanation := ("This risk block exists in both filings but the wording changed materially.".data),
          old_text := some pb.risk_text, new_text := some lb.risk_text,
          latest_block_id := some lb.block_id, prior_block_id := some pb.block_id }
      else none)

/-- The `used_prior` set after the first loop: block ids of prior blocks that
best-matched some latest block with score at least 0.55. -/
def crUsedPrior (latest prior : List Block) : List Str :=
  latest.filterMap (fun lb =>
    let sp := _best_match lb prior
    match sp.2 with
    | none => none
    | some pb => if sp.1 < (11 / 20 : ℚ) then none else some pb.block_id)

/-- The REMOVED records of `compare_reports` (second loop). -/
def crRemoved (latest prior : List Block) : List CmpChange :=
  prior.filterMap (fun pb =>
    if (crUsedPrior latest prior).contains pb.block_id then none
    else
      let sl := _best_match pb latest
      match sl.2 with
      | none => some
        { risk_theme := pb.risk_theme, change_type := ("REMOVED".data), change_score := 90,
          short_explanation := ("This risk block appears in the prior filing but not in the latest filing.".data),
          old_text := some pb.risk_text, new_text := none,
          latest_block_id := none, prior_block_id := some pb.block_id }
      | some _ =>
        if sl.1 < (11 / 20 : ℚ) then some
          { risk_theme := pb.risk_theme, change_type := ("REMOVED".data),
            change_score := intTrunc ((1 - sl.1) * 100),
            short_explanation := ("This risk block appears in the prior filing but not in the latest filing.".data),
            old_text := some pb.risk_text, new_text := none,
            latest_block_id := none, prior_block_id := some pb.block_id }
        else none)

/-- Final presentation order of `compare_reports`. -/
def cmpChangeLe (c d : CmpChange) : Prop :=
  typeRank c.change_type < typeRank d.change_type ∨
    (typeRank c.change_type = typeRank d.change_type ∧ d.change_score ≤ c.change_score)

instance : DecidableRel cmpChangeLe := fun c d => by unfold cmpChangeLe; infer_instance

instance : IsTotal CmpChange cmpChangeLe := by
  constructor
  intro x y
  unfold cmpChangeLe
  rcases lt_trichotomy (typeRank x.change_type) (typeRank y.change_type) with h | h | h
  · exact Or.inl (Or.inl h)
  · rcases Int.le_total y.change_score x.change_score with h2 | h2
    · exact Or.inl (Or.inr ⟨h, h2⟩)
    · exact Or.inr (Or.inr ⟨h.symm, h2⟩)
  · exact Or.inr (Or.inl h)

instance : IsTrans CmpChange cmpChangeLe := by
  constructor
  intro a b c hab hbc
  unfold cmpChangeLe at *
  rcases hab with h1 | ⟨e1, h1⟩
  · rcases hbc with h2 | ⟨e2, _⟩
    · exact Or.inl (h1.trans h2)
    · exact Or.inl (lt_of_lt_of_le h1 (le_of_eq e2))
  · rcases hbc with h2 | ⟨e2, h2⟩
    · exact Or.inl (lt_of_le_of_lt (le_of_eq e1) h2)
    · exact Or.inr ⟨e1.trans e2, h2.trans h1⟩

/-- Embedding of the change-list computation of `compare_reports` (the
company/year metadata fields are caller-supplied pass-through and omitted). -/
def compare_reports (latest prior : List Block) : List CmpChange :=
  (List.insertionSort cmpChangeLe (crFirstPass latest prior ++ crRemoved latest prior)).take 15

/-! Theme classifiers (`src/core/classifier.py` and
`src/functions/risk_blocks.py`). -/

/-- The theme keyword table of `src/core/classifier.py`, in declaration
order. -/
def THEME_KEYWORDS : List (Str × List Str) :=
  [(("cybersecurity".data),
    [("cyber".data), ("data breach".data), ("information security".data), ("hacking".data),
     ("ransomware".data), ("data protection".data), ("phishing".data), ("malware".data)]),
   (("regulatory".data),
    [("regulat".data), ("compliance".data), ("government".data), ("legislation".data),
     ("law ".data), (" legal".data), ("SEC ".data), ("FDA ".data), ("antitrust".data),
     ("enforcement".data)]),
   (("supply_chain".data),
    [("supply chain".data), ("supplier".data), ("logistics".data), ("procurement".data),
     ("shortage".data), ("inventory".data), ("raw material".data)]),
   (("geopolitical".data),
    [("geopolit".data), ("sanction".data), ("tariff".data), ("trade war".data),
     ("international conflict".data), ("foreign government".data),
     ("political instability".data)]),
   (("competition".data),
    [("competi".data), ("market share".data), ("rival".data), ("pricing pressure".data),
     ("new entrant".data), ("disrupt".data)]),
   (("macro".data),
    [("macroeconom".data), ("recession".data), ("inflation".data), ("interest rate".data),
     ("economic downturn".data), ("GDP".data), ("unemployment".data),
     ("monetary policy".data)]),
   (("financial".data),
    [("liquidity".data), ("credit risk".data), ("debt".data), ("capital adequacy".data),
     ("financial condition".data), ("cash flow".data), ("impairment".data),
     ("goodwill".data)]),
   (("technology".data),
    [("technolog".data), ("innovation".data), ("obsolescence".data),
     ("digital transformation".data), ("artificial intelligence".data), (" AI ".data),
     ("cloud computing".data)]),
   (("environmental".data),
    [("climate".data), ("environmental".data), ("sustainability".data), ("emission".data),
     ("carbon".data), (" ESG".data), ("natural disaster".data), ("weather".data)]),
   (("talent".data),
    [("talent".data), ("employee".data), ("workforce".data), ("labor".data),
     ("retention".data), ("hiring".data), ("key personnel".data), ("human capital".data)]),
   (("litigation".data),
    [("litigation".data), ("lawsuit".data), ("legal proceeding".data),
     ("class action".data), ("patent".data), ("intellectual property".data)]),
   (("reputational".data),
    [("reputation".data), ("brand".data), ("public perception".data), ("media".data),
     ("social media".data), ("consumer trust".data)])]

/-- Keyword scores of a text against a theme table: for each theme in order,
the number of its keywords occurring (case-insensitively) in the text. -/
def themeScores (table : List (Str × List Str)) (text : Str) : List (Str × Nat) :=
  let lower := text.map Char.toLower
  table.map (fun tk => (tk.1, tk.2.countP (fun kw => containsSub lower (kw.map Char.toLower))))

/-- Embedding of `_classify_theme`: keep positive scores in declaration order
and return the first strict maximum (`max(scores, key=scores.get)` over the
insertion-ordered dict), or `other` when no theme scores. -/
def _classify_theme (text : Str) : Str :=
  let pos := (themeScores THEME_KEYWORDS text).filter (fun ts => 0 < ts.2)
  match pos with
  | [] => ("other".data)
  | h :: t => (t.foldl (fun best x => if best.2 < x.2 then x else best) h).1

/-- Maximum of a list of naturals (0 for the empty list). -/
def maxNatL (l : List Nat) : Nat := l.foldr max 0

/-- Specification-side classifier, following the spec text: assign the theme
with the maximum nonzero score, ties broken by declaration order (the first
theme reaching the maximum wins), and `other` exactly when every theme scores
zero.  Stated over an arbitrary table for comparison with both classifiers. -/
def specMaxTheme (table : List (Str × List Str)) (text : Str) : Str :=
  let scores := themeScores table text
  if scores.all (fun ts => ts.2 = 0) then ("other".data)
  else
    match scores.find? (fun ts => ts.2 = maxNatL (scores.map (fun x => x.2))) with
    | some ts => ts.1
    | none => ("other".data)

/-- The theme rule table of `src/functions/risk_blocks.py`, in declaration
order. -/
def THEME_RULES : List (Str × List Str) :=
  [(("cybersecurity".data),
    [("cyber".data), ("security breach".data), ("data breach".data), ("ransomware".data),
     ("privacy".data)]),
   (("regulatory".data),
    [("regulation".data), ("regulatory".data), ("compliance".data), ("law".data),
     ("antitrust".data)]),
   (("supply_chain".data),
    [("supply".data), ("supplier".data), ("manufacturing".data), ("inventory".data),
     ("logistics".data)]),
   (("geopolitical".data),
    [("china".data), ("tariff".data), ("sanction".data), ("geopolitical".data),
     ("trade".data)]),
   (("competition".data),
    [("competition".data), ("competitor".data), ("pricing pressure".data),
     ("market share".data)]),
   (("macro".data),
    [("inflation".data), ("interest rate".data), ("recession".data),
     ("macroeconomic".data)])]

/-- Embedding of `_infer_theme`: the first theme in declaration order with any
keyword contained in the lower-cased text, else `other`. -/
def _infer_theme (text : Str) : Str :=
  let t := text.map Char.toLower
  match THEME_RULES.find? (fun tk => tk.2.any (fun k => containsSub t k)) with
  | some tk => tk.1
  | none => ("other".data)

/-! Concrete inputs used by witnesses and counterexamples. -/

/-- A document whose only Item 1A start match sits in a dense TOC window. -/
def exC1 : Str :=
  ("Item 1A. Risk Factors item 1 item 2 item 3 item 4 item 5 item 6".data)

/-- A document with no Item 1A anchor at all. -/
def exC2 : Str := ("hello world risk text without the anchor".data)

/-- A 29-character paragraph, below the 40-character survival threshold. -/
def p30 : Str := ("short risky line aa bb cc ddd".data)

/-- A document whose Item 1A section exists but consists only of short
paragraphs. -/
def exC5 : Str :=
  ("Item 1A. Risk Factors\n\n".data) ++ p30 ++ ("\n\n".data) ++ p30 ++ ("\n\n".data)
    ++ p30 ++ ("\n\n".data) ++ p30 ++ ("\n\n".data) ++ p30

/-- A block text with one cybersecurity keyword but three regulatory
keywords. -/
def exC8 : Str := ("cyber regulation compliance law data".data)

def pB6 : Block := ⟨("p0".data), ("th".data), ("tp".data), ("ab".data)⟩
def lA6 : Block := ⟨("l0".data), ("th".data), ("A".data), ("ab".data)⟩
def lB6 : Block := ⟨("l1".data), ("th".data), ("B".data), ("ab".data)⟩

/-- Prior and latest block lists producing two equal-similarity candidate
pairs (0,0) and (1,0). -/
def exP6 : List Block := [pB6]
def exL6 : List Block := [lA6, lB6]

def pB7 : Block := ⟨("p1".data), ("th".data), ("tp".data), ("uvwwxywz".data)⟩
def lB7 : Block := ⟨("l1".data), ("th".data), ("tl".data), ("xyzuv".data)⟩

/-- Prior and latest block lists whose single pair has similarity 6/13. -/
def exP7 : List Block := [pB7]
def exL7 : List Block := [lB7]

def pB3 : Block := ⟨("p0".data), ("th".data), ("tp".data), ("abcdef".data)⟩
def lA3 : Block := ⟨("l0".data), ("th".data), ("t0".data), ("abcdxy".data)⟩
def lB3 : Block := ⟨("l1".data), ("th".data), ("t1".data), ("abcdxy".data)⟩

/-- Prior and latest block lists where two latest blocks both best-match the
single prior block at similarity 2/3. -/
def exP3 : List Block := [pB3]
def exL3 : List Block := [lA3, lB3]

instance : Inhabited Change := ⟨⟨[], [], 0, [], none, none⟩⟩

/-- The single change record `compare_filings` produces on `exP7`/`exL7`. -/
def c7rec : Change :=
  { risk_theme := ("th".data), change_type := ("MODIFIED".data), change_score := 53,
    short_explanation := ("Language changed (".data) ++ ("46".data)
      ++ ("% similar): ".data) ++ ("tl".data),
    latest_block := some lB7, prior_block := some pB7 }

/-- The two records `compare_reports` produces on `exL3`/`exP3`, both
referencing the same prior block. -/
def cr3a : CmpChange :=
  { risk_theme := ("th".data), change_type := ("MODIFIED".data), change_score := 33,
    short_explanation := ("This risk block exists in both filings but the wording changed materially.".data),
    old_text := some ("abcdef".data), new_text := some ("abcdxy".data),
    latest_block_id := some ("l0".data), prior_block_id := some ("p0".data) }

def cr3b : CmpChange :=
  { risk_theme := ("th".data), change_type := ("MODIFIED".data), change_score := 33,
    short_explanation := ("This risk block exists in both filings but the wording changed materially.".data),
    old_text := some ("abcdef".data), new_text := some ("abcdxy".data),
    latest_block_id := some ("l1".data), prior_block_id := some ("p0".data) }

/-! Helper lemmas. -/

/-- The first element satisfying a predicate, when all earlier elements fail
it, is what `find?` returns. -/
theorem find?_first_of_prefix_false {α : Type} (p : α → Bool) :
    ∀ (l : List α) (i : Nat) (hi : i < l.length),
      (∀ j, ∀ hj : j < i, p (l.get ⟨j, Nat.lt_trans hj hi⟩) = false) →
      p (l.get ⟨i, hi⟩) = true → l.find? p = some (l.get ⟨i, hi⟩) := by
  intro l
  induction l with
  | nil => intro i hi; exact absurd hi (by simp)
  | cons x xs ih =>
    intro i hi hpre hp
    cases i with
    | zero => exact List.find?_cons_of_pos _ hp
    | succ n =>
      have h0 : p x = false := hpre 0 (Nat.succ_pos n)
      rw [List.find?_cons_of_neg _ (by simp [h0])]
      exact ih n (Nat.lt_of_succ_lt_succ hi)
        (fun j hj => hpre (j + 1) (Nat.succ_lt_succ hj)) hp

/-- A nonempty list contains its `getLastD`. -/
theorem getLastD_mem {α : Type} (d : α) :
    ∀ (l : List α), l ≠ [] → l.getLastD d ∈ l := by
  intro l
  induction l with
  | nil => intro h; exact absurd rfl h
  | cons x xs ih =>
    intro _
    match xs, ih with
    | [], _ => simp [List.getLastD]
    | y :: ys, ih =>
      have hstep : (x :: y :: ys).getLastD d = (y :: ys).getLastD d := by
        simp [List.getLastD]
      rw [hstep]
      exact List.mem_cons_of_mem x (ih (by simp))

/-- Consuming a literal never lengthens the input. -/
theorem eatCI_length_le : ∀ (p s t : Str), eatCI p s = some t → t.length ≤ s.length := by
  intro p
  induction p with
  | nil => intro s t h; simp [eatCI] at h; simp [h]
  | cons c cs ih =>
    intro s t h
    cases s with
    | nil => simp [eatCI] at h
    | cons d ds =>
      rw [eatCI] at h
      by_cases hd : d.toLower == c
      · simp [hd] at h
        exact le_trans (ih ds t h) (Nat.le_succ _)
      · simp [hd] at h

/-- Destructor for a successful `Option.bind`. -/
theorem bind_some_dest {α β : Type} {x : Option α} {f : α → Option β} {b : β}
    (h : x.bind f = some b) : ∃ a, x = some a ∧ f a = some b := by
  cases x with
  | none => simp at h
  | some a => exact ⟨a, rfl, h⟩

/-- Any match of the Item 1A start pattern fits inside its input. -/
theorem item1aStartLen_le (s : Str) (L : Nat) (h : item1aStartLen s = some L) :
    L ≤ s.length := by
  unfold item1aStartLen at h
  dsimp only [spanP] at h
  obtain ⟨s1, _, h⟩ := bind_some_dest h
  obtain ⟨s3, _, h⟩ := bind_some_dest h
  obtain ⟨s5, _, h⟩ := bind_some_dest h
  by_cases hk : ((s5.takeWhile isClsChar).length == 0) = true
  · rw [if_pos hk] at h; exact absurd h (by simp)
  · rw [if_neg hk] at h
    obtain ⟨s7, _, h⟩ := bind_some_dest h
    by_cases hw : ((s7.takeWhile isWsChar).length == 0) = true
    · rw [if_pos hw] at h; exact absurd h (by simp)
    · rw [if_neg hw] at h
      rw [Option.map_eq_some'] at h
      obtain ⟨s9, _, hL⟩ := h
      omega

/-- Every match reported by the scanner starts at or after the scan origin,
ends at or after its start, and ends within the scanned suffix. -/
theorem reFinditer_mem_bounds (mlen : Str → Option Nat)
    (hm : ∀ u L, mlen u = some L → L ≤ u.length) :
    ∀ (fuel : Nat) (s : Str) (pos : Nat) (m : Nat × Nat),
      m ∈ reFinditer mlen fuel s pos →
      pos ≤ m.1 ∧ m.1 ≤ m.2 ∧ m.2 ≤ pos + s.length := by
  intro fuel
  induction fuel with
  | zero => intro s pos m hmem; simp [reFinditer] at hmem
  | succ n ih =>
    intro s pos m hmem
    cases s with
    | nil => simp [reFinditer] at hmem
    | cons c rest =>
      rw [reFinditer] at hmem
      cases hml : mlen (c :: rest) with
      | some L =>
        rw [hml] at hmem
        rcases List.mem_cons.mp hmem with he | ht
        · subst he
          exact ⟨le_refl _, Nat.le_add_right _ _,
            Nat.add_le_add_left (hm _ _ hml) pos⟩
        · have hb := ih _ _ _ ht
          have hL : L ≤ (c :: rest).length := hm _ _ hml
          have hdrop : ((c :: rest).drop L).length = (c :: rest).length - L :=
            List.length_drop L _
          refine ⟨le_trans (Nat.le_add_right pos L) hb.1, hb.2.1, ?_⟩
          have := hb.2.2
          omega
      | none =>
        rw [hml] at hmem
        have hb := ih _ _ _ hmem
        refine ⟨le_trans (Nat.le_succ pos) hb.1, hb.2.1, ?_⟩
        have := hb.2.2
        simp [List.length_cons] at *
        omega

/-- The chosen start offset never exceeds the document length. -/
theorem startPosOf_le_length (text : Str) : startPosOf text ≤ text.length := by
  unfold startPosOf
  cases hf : (item1aMatches text).find? (fun m => !tocWindow text m) with
  | some m =>
    have hmem := List.mem_of_find?_eq_some hf
    simp only [item1aMatches, reMatches] at hmem
    have hb := reFinditer_mem_bounds item1aStartLen item1aStartLen_le _ _ _ _ hmem
    simpa using hb.2.2
  | none =>
    by_cases hl : item1aMatches text = []
    · rw [hl]; simp [List.getLastD]
    · have hmem : (item1aMatches text).getLastD (0, 0) ∈ item1aMatches text :=
        getLastD_mem _ _ hl
      simp only [item1aMatches, reMatches] at hmem
      have hb := reFinditer_mem_bounds item1aStartLen item1aStartLen_le _ _ _ _ hmem
      simpa using hb.2.2

/-- The chosen end offset never exceeds the document length. -/
theorem endPosOf_le_length (text : Str) (s : Nat) :
    endPosOf text s ≤ text.length := by
  unfold endPosOf
  cases h1 : (reMatches end1bLen text).find? (endOk text s) with
  | some m1 =>
    cases h2 : (reMatches end2Len text).find? (endOk text s) with
    | some m2 => exact le_trans (Nat.min_le_left _ _) (Nat.min_le_left _ _)
    | none => exact Nat.min_le_left _ _
  | none =>
    cases h2 : (reMatches end2Len text).find? (endOk text s) with
    | some m2 => exact Nat.min_le_left _ _
    | none => exact le_refl _

/-- An accepted end match lies strictly beyond `start + 500`. -/
theorem endOk_gt (text : Str) (s : Nat) (m : Nat × Nat)
    (h : endOk text s m = true) : s + 500 < m.1 := by
  unfold endOk at h
  simp only [Bool.and_eq_true, decide_eq_true_eq] at h
  exact h.1

/-- The end offset is at least the start offset. -/
theorem le_endPosOf (text : Str) (hs : startPosOf text ≤ text.length) :
    startPosOf text ≤ endPosOf text (startPosOf text) := by
  unfold endPosOf
  cases h1 : (reMatches end1bLen text).find? (endOk text (startPosOf text)) with
  | some m1 =>
    have hp1 := endOk_gt _ _ _ (List.find?_some h1)
    cases h2 : (reMatches end2Len text).find? (endOk text (startPosOf text)) with
    | some m2 =>
      have hp2 := endOk_gt _ _ _ (List.find?_some h2)
      simp only [le_min_iff]
      omega
    | none =>
      simp only [le_min_iff]
      omega
  | none =>
    cases h2 : (reMatches end2Len text).find? (endOk text (startPosOf text)) with
    | some m2 =>
      have hp2 := endOk_gt _ _ _ (List.find?_some h2)
      simp only [le_min_iff]
      omega
    | none => exact hs

/-! Claim theorems. -/

/-- C1: a start candidate is rejected exactly when the 2000-character window
after it counts more than five `Item <digit>` occurrences; the locator then
advances to the next match, and when every candidate is rejected it falls
back to the last start match found. -/
theorem locator_toc_rejection (text : Str) (hne : item1aMatches text ≠ []) :
    ((∀ m ∈ item1aMatches text, tocWindow text m = true) →
      startPosOf text = ((item1aMatches text).getLastD (0, 0)).2) ∧
    (∀ i : Nat, ∀ hi : i < (item1aMatches text).length,
      (∀ j, ∀ hj : j < i,
        tocWindow text ((item1aMatches text).get ⟨j, Nat.lt_trans hj hi⟩) = true) →
      tocWindow text ((item1aMatches text).get ⟨i, hi⟩) = false →
      startPosOf text = ((item1aMatches text).get ⟨i, hi⟩).2) := by
  constructor
  · intro hall
    unfold startPosOf
    have hnone : (item1aMatches text).find? (fun m => !tocWindow text m) = none := by
      rw [List.find?_eq_none]
      intro m hm
      simp [hall m hm]
    rw [hnone]
  · intro i hi hpre htoc
    unfold startPosOf
    rw [find?_first_of_prefix_false _ _ i hi
      (fun j hj => by simpa using hpre j hj) (by simpa using htoc)]

set_option maxRecDepth 40000 in
/-- Witness for C1 at a document whose single start match is TOC-rejected. -/
theorem locator_toc_rejection_witness :
    startPosOf exC1 = ((item1aMatches exC1).getLastD (0, 0)).2 :=
  (locator_toc_rejection exC1 (by decide)).1 (by decide)

/-- C2 (amended): the core locator returns the explicit not-found value
exactly when no start pattern matches. -/
theorem locate_none_iff_no_start (text : Str) :
    _locate_item1a_range text = none ↔ item1aMatches text = [] := by
  unfold _locate_item1a_range
  by_cases h : item1aMatches text = [] <;> simp [h]

set_option maxRecDepth 40000 in
/-- C2 counterexample: on a document with no Item 1A anchor, the MVP
extractor returns a nonempty substitute section tagged FALLBACK_TOP instead
of a failure value (while the core locator does return the failure value). -/
theorem mvp_extract_substitute_on_missing_anchor :
    _locate_item1a_range exC2 = none ∧
    extract_item_1a_text exC2 = (exC2, ("locator=FALLBACK_TOP".data)) ∧
    (extract_item_1a_text exC2).1 ≠ [] := by decide

/-- C5 (amended): when every paragraph of the located section is filtered
out, the text-fallback segmenter returns the empty list (no fallback block
is emitted). -/
theorem segmenter_empty_when_all_paragraphs_filtered (text : Str)
    (h : fbParas text = []) : _extract_risks_from_text_fallback text = [] := by
  unfold _extract_risks_from_text_fallback
  cases hl : _locate_item1a_range text with
  | none => rfl
  | some se =>
    by_cases hc : (fbCleaned text).length < 100
    · simp [hc]
    · simp [hc, h]

set_option maxRecDepth 100000 in
/-- C5 counterexample: a located, non-empty Item 1A section whose paragraphs
are all short yields an empty block list, not a single fallback block. -/
theorem segmenter_counterexample :
    _locate_item1a_range exC5 = some (21, 176) ∧ 21 < 176 ∧
    _extract_risks_from_text_fallback exC5 = [] := by decide

set_option maxRecDepth 100000 in
/-- Witness for the amended C5 at the all-short-paragraphs document. -/
theorem segmenter_empty_witness : _extract_risks_from_text_fallback exC5 = [] :=
  segmenter_empty_when_all_paragraphs_filtered exC5 (by decide)

/-- C9: `compare_filings` is deterministic — equal prior and latest reports
with equal thresholds and cap produce identical change lists. -/
theorem compare_filings_deterministic (p₁ p₂ l₁ l₂ : List Block) (t i : ℚ)
    (n : Nat) (hp : p₁ = p₂) (hl : l₁ = l₂) :
    compare_filings p₁ l₁ t i n = compare_filings p₂ l₂ t i n := by
  subst hp
  subst hl
  rfl

/-- Witness for C9 at concrete reports. -/
theorem compare_filings_deterministic_witness :
    compare_filings exP6 exL6 0 1 15 = compare_filings exP6 exL6 0 1 15 :=
  compare_filings_deterministic exP6 exP6 exL6 exL6 0 1 15 rfl rfl

/-- C10: whenever the locator returns a range, it satisfies
`0 ≤ start ≤ end ≤ length`, so slicing with it is well-defined. -/
theorem locate_range_bounds (text : Str) (s e : Nat)
    (h : _locate_item1a_range text = some (s, e)) :
    0 ≤ s ∧ s ≤ e ∧ e ≤ text.length := by
  unfold _locate_item1a_range at h
  by_cases hni : item1aMatches text = []
  · simp [hni] at h
  · simp only [hni, if_false, Option.some_inj] at h
    obtain ⟨hs, he⟩ := Prod.mk.injEq .. ▸ h
    subst hs
    subst he
    exact ⟨Nat.zero_le _,
      le_endPosOf text (startPosOf_le_length text), endPosOf_le_length text _⟩

set_option maxRecDepth 100000 in
/-- Witness for C10 at a concrete document. -/
theorem locate_range_bounds_witness : 0 ≤ 21 ∧ 21 ≤ 176 ∧ 176 ≤ exC5.length :=
  locate_range_bounds exC5 21 176 (by decide)

set_option maxRecDepth 40000 in
/-- C8 counterexample: on a block with one cybersecurity keyword and three
regulatory keywords, `_infer_theme` returns the first theme with any hit
rather than the maximum-scoring theme. -/
theorem infer_theme_not_max_counterexample :
    _infer_theme exC8 = ("cybersecurity".data) ∧
    specMaxTheme THEME_RULES exC8 = ("regulatory".data) ∧
    ¬ (("cybersecurity".data : Str) = ("regulatory".data)) := by decide

/-- Unfolding lemma for list maxima. -/
theorem maxNatL_cons (x : Nat) (l : List Nat) : maxNatL (x :: l) = max x (maxNatL l) := rfl

/-- Every member is bounded by the list maximum. -/
theorem le_maxNatL : ∀ (l : List Nat), ∀ x ∈ l, x ≤ maxNatL l := by
  intro l
  induction l with
  | nil => intro x hx; simp at hx
  | cons y t ih =>
    intro x hx
    rw [maxNatL_cons]
    rcases List.mem_cons.mp hx with he | ht
    · exact he ▸ Nat.le_max_left _ _
    · exact le_trans (ih x ht) (Nat.le_max_right _ _)

/-- The left fold keeping the first strict maximum computes the first element
whose score attains the list maximum (the semantics of Python
`max(d, key=d.get)` over an insertion-ordered dict). -/
theorem find?_max_fold {α : Type} :
    ∀ (t : List (α × Nat)) (h : α × Nat) (M : Nat),
      M = maxNatL ((h :: t).map (fun y => y.2)) →
      (h :: t).find? (fun x => decide (x.2 = M)) =
        some (t.foldl (fun best x => if best.2 < x.2 then x else best) h) := by
  intro t
  induction t with
  | nil =>
    intro h M hM
    simp [maxNatL_cons, maxNatL] at hM
    simp [List.find?, hM]
  | cons y t' ih =>
    intro h M hM
    have hhle : h.2 ≤ M := hM ▸ le_maxNatL _ _ (by simp)
    have hyle : y.2 ≤ M := hM ▸ le_maxNatL _ _ (by simp)
    have hM' : M = maxNatL (((if h.2 < y.2 then y else h) :: t').map (fun y => y.2)) := by
      rw [hM]
      simp only [List.map_cons, maxNatL_cons]
      by_cases hc : h.2 < y.2
      · rw [if_pos hc]
        exact Nat.max_eq_right (le_trans (le_of_lt hc) (Nat.le_max_left _ _))
      · rw [if_neg hc]
        rw [← Nat.max_assoc]
        rw [Nat.max_eq_left (Nat.le_of_not_lt hc)]
    by_cases hh : h.2 = M
    · have hnc : ¬ h.2 < y.2 := by omega
      rw [List.find?_cons_of_pos _ (by simp [hh])]
      have hthis := ih (if h.2 < y.2 then y else h) M hM'
      rw [if_neg hnc] at hthis
      rw [List.find?_cons_of_pos _ (by simp [hh])] at hthis
      have hfold := Option.some.inj hthis
      simp only [List.foldl_cons, if_neg hnc]
      rw [← hfold]
    · rw [List.find?_cons_of_neg _ (by simp [hh])]
      by_cases hc : h.2 < y.2
      · have hthis := ih (if h.2 < y.2 then y else h) M hM'
        rw [if_pos hc] at hthis
        simpa [List.foldl_cons, if_pos hc] using hthis
      · have hyne : ¬ (y.2 = M) := by omega
        rw [List.find?_cons_of_neg _ (by simp [hyne])]
        have hthis := ih (if h.2 < y.2 then y else h) M hM'
        rw [if_neg hc] at hthis
        rw [List.find?_cons_of_neg _ (by simp [hh])] at hthis
        simpa [List.foldl_cons, if_neg hc] using hthis

/-- Searching a filtered list equals searching the whole list when the search
predicate implies the filter predicate. -/
theorem find?_filter_of_imp {α : Type} (p q : α → Bool)
    (himp : ∀ x, p x = true → q x = true) :
    ∀ l : List α, (l.filter q).find? p = l.find? p := by
  intro l
  induction l with
  | nil => rfl
  | cons x xs ih =>
    by_cases hq : q x = true
    · rw [List.filter_cons_of_pos hq]
      by_cases hp : p x = true
      · rw [List.find?_cons_of_pos _ hp, List.find?_cons_of_pos _ hp]
      · rw [List.find?_cons_of_neg _ (by simp [hp]),
          List.find?_cons_of_neg _ (by simp [hp])]
        exact ih
    · rw [List.filter_cons_of_neg (by simp [hq])]
      have hp : ¬ p x = true := fun h => hq (himp x h)
      rw [List.find?_cons_of_neg _ (by simp [hp])]
      exact ih

/-- Dropping zero-score entries does not change the maximum score. -/
theorem maxNatL_filter_posSnd {α : Type} :
    ∀ l : List (α × Nat),
      maxNatL ((l.filter (fun x => decide (0 < x.2))).map (fun x => x.2)) =
        maxNatL (l.map (fun x => x.2)) := by
  intro l
  induction l with
  | nil => rfl
  | cons x xs ih =>
    by_cases hx : 0 < x.2
    · rw [List.filter_cons_of_pos (by simp [hx])]
      simp only [List.map_cons, maxNatL_cons, ih]
    · rw [List.filter_cons_of_neg (by simp [hx])]
      have hz : x.2 = 0 := by omega
      simp only [List.map_cons, maxNatL_cons, ih, hz, Nat.zero_max]

/-- The classifier core: first-strict-max over positive scores in order
equals the spec's first theme attaining the maximum nonzero score, with
`other` exactly when every score is zero. -/
theorem firstMaxFilter_eq {α : Type} (scores : List (α × Nat)) (other : α) :
    (match scores.filter (fun ts => decide (0 < ts.2)) with
     | [] => other
     | h :: t => (t.foldl (fun best x => if best.2 < x.2 then x else best) h).1) =
    (if scores.all (fun ts => decide (ts.2 = 0)) then other
     else
       match scores.find? (fun ts => decide (ts.2 = maxNatL (scores.map (fun x => x.2)))) with
       | some ts => ts.1
       | none => other) := by
  cases hfil : scores.filter (fun ts => decide (0 < ts.2)) with
  | nil =>
    have hall : scores.all (fun ts => decide (ts.2 = 0)) = true := by
      rw [List.all_eq_true]
      intro x hx
      by_cases h0 : 0 < x.2
      · have hcontra : x ∈ ([] : List (α × Nat)) :=
          hfil ▸ List.mem_filter.mpr ⟨hx, by simp [h0]⟩
        simp at hcontra
      · simp only [decide_eq_true_eq]; omega
    rw [if_pos hall]
  | cons h t =>
    have hmemh : h ∈ scores.filter (fun ts => decide (0 < ts.2)) := by
      rw [hfil]; exact List.mem_cons_self _ _
    have hposh : 0 < h.2 := by
      have := (List.mem_filter.mp hmemh).2
      simpa using this
    have hmem : h ∈ scores := (List.mem_filter.mp hmemh).1
    have hall : ¬ scores.all (fun ts => decide (ts.2 = 0)) = true := by
      rw [List.all_eq_true]
      intro hc
      have := hc h hmem
      simp at this
      omega
    rw [if_neg hall]
    have hMpos : 0 < maxNatL (scores.map (fun x => x.2)) :=
      lt_of_lt_of_le hposh (le_maxNatL _ _ (List.mem_map_of_mem _ hmem))
    have hstep1 :
        scores.find? (fun ts => decide (ts.2 = maxNatL (scores.map (fun x => x.2)))) =
        (scores.filter (fun ts => decide (0 < ts.2))).find?
          (fun ts => decide (ts.2 = maxNatL (scores.map (fun x => x.2)))) := by
      rw [find?_filter_of_imp]
      intro x hx
      simp only [decide_eq_true_eq] at hx
      simp only [decide_eq_true_eq]
      omega
    have hM : maxNatL (scores.map (fun x => x.2)) =
        maxNatL ((h :: t).map (fun y => y.2)) := by
      rw [← hfil, maxNatL_filter_posSnd]
    have hstep2 := find?_max_fold t h (maxNatL (scores.map (fun x => x.2))) hM
    rw [hstep1, hfil, hstep2]

/-- C8 (amended): the core classifier assigns the theme with the maximum
nonzero keyword score over its table, ties broken by declaration order, and
`other` exactly when every theme scores zero. -/
theorem classify_theme_eq_specMax (text : Str) :
    _classify_theme text = specMaxTheme THEME_KEYWORDS text := by
  unfold _classify_theme specMaxTheme
  dsimp only
  generalize themeScores THEME_KEYWORDS text = scores
  cases hfil : scores.filter (fun ts => decide (0 < ts.2)) with
  | nil =>
    have hall : scores.all (fun ts => decide (ts.2 = 0)) = true := by
      rw [List.all_eq_true]
      intro x hx
      by_cases h0 : 0 < x.2
      · have hcontra : x ∈ ([] : List (Str × Nat)) :=
          hfil ▸ List.mem_filter.mpr ⟨hx, by simp [h0]⟩
        simp at hcontra
      · simp only [decide_eq_true_eq]; omega
    rw [if_pos hall]
  | cons h t =>
    have hmemh : h ∈ scores.filter (fun ts => decide (0 < ts.2)) := by
      rw [hfil]; exact List.mem_cons_self _ _
    have hposh : 0 < h.2 := by
      have := (List.mem_filter.mp hmemh).2
      simpa using this
    have hmem : h ∈ scores := (List.mem_filter.mp hmemh).1
    have hall : ¬ scores.all (fun ts => decide (ts.2 = 0)) = true := by
      rw [List.all_eq_true]
      intro hc
      have := hc h hmem
      simp at this
      omega
    rw [if_neg hall]
    have hstep1 :
        scores.find? (fun ts => decide (ts.2 = maxNatL (scores.map (fun x => x.2)))) =
        (scores.filter (fun ts => decide (0 < ts.2))).find?
          (fun ts => decide (ts.2 = maxNatL (scores.map (fun x => x.2)))) := by
      rw [find?_filter_of_imp]
      intro x hx
      simp only [decide_eq_true_eq] at hx
      have hMpos : 0 < maxNatL (scores.map (fun x => x.2)) :=
        lt_of_lt_of_le hposh (le_maxNatL _ _ (List.mem_map_of_mem _ hmem))
      simp only [decide_eq_true_eq]
      omega
    have hM : maxNatL (scores.map (fun x => x.2)) =
        maxNatL ((h :: t).map (fun y => y.2)) := by
      rw [← hfil, maxNatL_filter_posSnd]
    have hstep2 := find?_max_fold t h (maxNatL (scores.map (fun x => x.2))) hM
    rw [hstep1, hfil, hstep2]

/-- Filtering a list by a predicate and by its negation partitions its
length. -/
theorem length_filter_add {α : Type} (p : α → Bool) :
    ∀ l : List α, (l.filter p).length + (l.filter (fun x => !(p x))).length = l.length := by
  intro l
  induction l with
  | nil => rfl
  | cons x xs ih =>
    by_cases hp : p x = true
    · rw [List.filter_cons_of_pos hp, List.filter_cons_of_neg (by simp [hp])]
      simp only [List.length_cons]
      omega
    · rw [List.filter_cons_of_neg (by simpa using hp),
        List.filter_cons_of_pos (by simp [hp])]
      simp only [List.length_cons]
      omega

/-- A duplicate-free list of naturals below `n` has at most `n` elements, and
the range positions it does not occupy number exactly `n` minus its length. -/
theorem length_filter_not_contains (s : List Nat) (n : Nat) (h1 : s.Nodup)
    (h2 : ∀ x ∈ s, x < n) :
    s.length ≤ n ∧
    ((List.range n).filter (fun i => !(s.contains i))).length = n - s.length := by
  have hperm : List.Perm ((List.range n).filter (fun i => s.contains i)) s := by
    rw [List.perm_ext_iff_of_nodup (List.Nodup.filter _ (List.nodup_range n)) h1]
    intro a
    constructor
    · intro ha
      have := List.mem_filter.mp ha
      simpa using this.2
    · intro ha
      exact List.mem_filter.mpr ⟨List.mem_range.mpr (h2 a ha), by simpa using ha⟩
  have hlen : ((List.range n).filter (fun i => s.contains i)).length = s.length :=
    hperm.length_eq
  have hadd := length_filter_add (fun i => s.contains i) (List.range n)
  rw [hlen, List.length_range] at hadd
  constructor
  · omega
  · omega

/-- Invariants of the greedy matcher fold: the consumed-index lists stay
duplicate-free, mirror the accepted matches, and stay within range. -/
theorem cfGreedy_inv (nL nP : Nat) :
    ∀ (cands : List (ℚ × Nat × Nat)) (st : List Nat × List Nat × List (Nat × Nat × ℚ)),
      (∀ c ∈ cands, c.2.1 < nL ∧ c.2.2 < nP) →
      st.1.Nodup → st.2.1.Nodup →
      List.Perm (st.2.2.map (fun m => m.1)) st.1 →
      List.Perm (st.2.2.map (fun m => m.2.1)) st.2.1 →
      (∀ x ∈ st.1, x < nL) → (∀ x ∈ st.2.1, x < nP) →
      ((cands.foldl cfGreedyStep st).1.Nodup ∧
       (cands.foldl cfGreedyStep st).2.1.Nodup ∧
       List.Perm ((cands.foldl cfGreedyStep st).2.2.map (fun m => m.1))
         (cands.foldl cfGreedyStep st).1 ∧
       List.Perm ((cands.foldl cfGreedyStep st).2.2.map (fun m => m.2.1))
         (cands.foldl cfGreedyStep st).2.1 ∧
       (∀ x ∈ (cands.foldl cfGreedyStep st).1, x < nL) ∧
       (∀ x ∈ (cands.foldl cfGreedyStep st).2.1, x < nP)) := by
  intro cands
  induction cands with
  | nil =>
    intro st _ h1 h2 h3 h4 h5 h6
    exact ⟨h1, h2, h3, h4, h5, h6⟩
  | cons c cs ih =>
    intro st hc h1 h2 h3 h4 h5 h6
    rw [List.foldl_cons]
    have hcb := hc c (List.mem_cons_self _ _)
    have hcs : ∀ x ∈ cs, x.2.1 < nL ∧ x.2.2 < nP :=
      fun x hx => hc x (List.mem_cons_of_mem _ hx)
    unfold cfGreedyStep
    by_cases hacc : (!(st.1.contains c.2.1) && !(st.2.1.contains c.2.2)) = true
    · rw [if_pos hacc]
      rw [Bool.and_eq_true, Bool.not_eq_true', Bool.not_eq_true'] at hacc
      have hnl : ¬ c.2.1 ∈ st.1 := by simpa using hacc.1
      have hnp : ¬ c.2.2 ∈ st.2.1 := by simpa using hacc.2
      refine ih (c.2.1 :: st.1, c.2.2 :: st.2.1, st.2.2 ++ [(c.2.1, c.2.2, c.1)]) hcs
        (List.nodup_cons.mpr ⟨hnl, h1⟩) (List.nodup_cons.mpr ⟨hnp, h2⟩) ?_ ?_ ?_ ?_
      · simp only [List.map_append, List.map_cons, List.map_nil]
        exact (List.perm_append_singleton _ _).trans (h3.cons _)
      · simp only [List.map_append, List.map_cons, List.map_nil]
        exact (List.perm_append_singleton _ _).trans (h4.cons _)
      · intro x hx
        rcases List.mem_cons.mp hx with he | hm
        · exact he ▸ hcb.1
        · exact h5 x hm
      · intro x hx
        rcases List.mem_cons.mp hx with he | hm
        · exact he ▸ hcb.2
        · exact h6 x hm
    · rw [if_neg hacc]
      exact ih st hcs h1 h2 h3 h4 h5 h6

/-- Every candidate pair indexes into the two block lists. -/
theorem cfSorted_bounds (prior latest : List Block) (thr : ℚ) :
    ∀ c ∈ cfSorted prior latest thr, c.2.1 < latest.length ∧ c.2.2 < prior.length := by
  intro c hc
  have hmem : c ∈ cfCandidates prior latest thr :=
    (List.perm_insertionSort candLe _).mem_iff.mp hc
  unfold cfCandidates at hmem
  rw [List.mem_flatMap] at hmem
  obtain ⟨li, hli, hc2⟩ := hmem
  rw [List.mem_filterMap] at hc2
  obtain ⟨pi, hpi, hif⟩ := hc2
  by_cases hthr :
      thr < _similarity (latest.getD li default).risk_text (prior.getD pi default).risk_text
  · rw [if_pos hthr] at hif
    obtain rfl := Option.some.inj hif
    exact ⟨List.mem_range.mp hli, List.mem_range.mp hpi⟩
  · rw [if_neg hthr] at hif
    exact absurd hif (by simp)

/-- C3 (amended): for `compare_filings`, no latest index and no prior index
is consumed twice, NEW and REMOVED are disjoint from the matched sides, and
`|matches| + |new| = |latest|`, `|matches| + |removed| = |prior|`. -/
theorem diff_engine_exclusive_counts (prior latest : List Block) (thr : ℚ) :
    ((cfMatches prior latest thr).map (fun m => m.1)).Nodup ∧
    ((cfMatches prior latest thr).map (fun m => m.2.1)).Nodup ∧
    (∀ i ∈ cfNew prior latest thr,
      ¬ i ∈ (cfMatches prior latest thr).map (fun m => m.1)) ∧
    (∀ j ∈ cfRemoved prior latest thr,
      ¬ j ∈ (cfMatches prior latest thr).map (fun m => m.2.1)) ∧
    (cfMatches prior latest thr).length + (cfNew prior latest thr).length = latest.length ∧
    (cfMatches prior latest thr).length + (cfRemoved prior latest thr).length = prior.length := by
  have hinv := cfGreedy_inv latest.length prior.length (cfSorted prior latest thr)
    ([], [], []) (cfSorted_bounds prior latest thr) (List.nodup_nil) (List.nodup_nil)
    (List.Perm.refl _) (List.Perm.refl _) (by intro x hx; simp at hx)
    (by intro x hx; simp at hx)
  obtain ⟨hn1, hn2, hp1, hp2, hb1, hb2⟩ := hinv
  have hmsL : cfMatchedL prior latest thr = ((cfSorted prior latest thr).foldl cfGreedyStep ([], [], [])).1 := rfl
  have hmsP : cfMatchedP prior latest thr = ((cfSorted prior latest thr).foldl cfGreedyStep ([], [], [])).2.1 := rfl
  have hms : cfMatches prior latest thr = ((cfSorted prior latest thr).foldl cfGreedyStep ([], [], [])).2.2 := rfl
  rw [← hmsL] at hn1 hp1 hb1
  rw [← hmsP] at hn2 hp2 hb2
  rw [← hms] at hp1 hp2
  have hcount1 := length_filter_not_contains (cfMatchedL prior latest thr)
    latest.length hn1 hb1
  have hcount2 := length_filter_not_contains (cfMatchedP prior latest thr)
    prior.length hn2 hb2
  have hlen1 : (cfMatches prior latest thr).length = (cfMatchedL prior latest thr).length := by
    rw [← hp1.length_eq, List.length_map]
  have hlen2 : (cfMatches prior latest thr).length = (cfMatchedP prior latest thr).length := by
    rw [← hp2.length_eq, List.length_map]
  refine ⟨hp1.nodup_iff.mpr hn1, hp2.nodup_iff.mpr hn2, ?_, ?_, ?_, ?_⟩
  · intro i hi
    have hcf := (List.mem_filter.mp hi).2
    intro hmem
    have hin : i ∈ cfMatchedL prior latest thr := hp1.subset hmem
    have hnotin : ¬ i ∈ cfMatchedL prior latest thr := by simpa using hcf
    exact hnotin hin
  · intro j hj
    have hcf := (List.mem_filter.mp hj).2
    intro hmem
    have hin : j ∈ cfMatchedP prior latest thr := hp2.subset hmem
    have hnotin : ¬ j ∈ cfMatchedP prior latest thr := by simpa using hcf
    exact hnotin hin
  · have : (cfNew prior latest thr).length =
        latest.length - (cfMatchedL prior latest thr).length := hcount1.2
    rw [this, hlen1]
    omega
  · have : (cfRemoved prior latest thr).length =
        prior.length - (cfMatchedP prior latest thr).length := hcount2.2
    rw [this, hlen2]
    omega

/-- C6 (amended): the candidate list the greedy matcher scans is sorted in
descending lexicographic `(sim, li, pi)` order — on equal similarity the
higher `(li, pi)` pair comes first (Python `sort(reverse=True)` on the
tuples) — and it is a permutation of the candidate pairs, so the matching is
deterministic. -/
theorem cfSorted_desc_ties_high (prior latest : List Block) (thr : ℚ) :
    List.Sorted candLe (cfSorted prior latest thr) ∧
    List.Perm (cfSorted prior latest thr) (cfCandidates prior latest thr) :=
  ⟨List.sorted_insertionSort candLe (cfCandidates prior latest thr),
   List.perm_insertionSort candLe (cfCandidates prior latest thr)⟩

/-- The two candidate pairs of the tie example share similarity 1. -/
theorem sim_ab : _similarity ("ab".data) ("ab".data) = 1 := by
  unfold _similarity ratioQ
  rw [show List.map Char.toLower ("ab".data) = ("ab".data) from rfl,
      show matchSum ("ab".data) ("ab".data) (bPopular ("ab".data)) (fun _ => false)
        (("ab".data).length + ("ab".data).length + 1) 0 (("ab".data).length) 0
        (("ab".data).length) = 2 from by decide]
  norm_num

/-- Candidate enumeration of the tie example. -/
theorem cand_eval_c6 : cfCandidates exP6 exL6 0 = [(1, 0, 0), (1, 1, 0)] := by
  unfold cfCandidates exP6 exL6
  simp only [List.length_cons, List.length_nil, List.range_succ, List.range_zero,
    List.nil_append, List.cons_append, List.flatMap_cons, List.flatMap_nil,
    List.filterMap_cons, List.filterMap_nil,
    List.getD_cons_zero, List.getD_cons_succ, lA6, lB6, pB6]
  rw [sim_ab]
  norm_num

/-- C6 counterexample: with two candidate pairs (0,0) and (1,0) of equal
similarity, the matcher accepts the pair with the higher `(li, pi)` — the
lower pair does not win the tie. -/
theorem greedy_tie_higher_pair_counterexample :
    cfCandidates exP6 exL6 0 = [(1, 0, 0), (1, 1, 0)] ∧
    cfMatches exP6 exL6 0 = [(1, 0, 1)] := by
  refine ⟨cand_eval_c6, ?_⟩
  have hc : cfSorted exP6 exL6 0 = [(1, 1, 0), (1, 0, 0)] := by
    unfold cfSorted
    rw [cand_eval_c6]
    decide
  unfold cfMatches cfState
  rw [hc]
  decide

/-- The similarity of the two C7 block texts is exactly 6/13. -/
theorem sim_c7 : _similarity ("xyzuv".data) ("uvwwxywz".data) = 6 / 13 := by
  unfold _similarity ratioQ
  rw [show List.map Char.toLower ("xyzuv".data) = ("xyzuv".data) from rfl,
      show List.map Char.toLower ("uvwwxywz".data) = ("uvwwxywz".data) from rfl,
      show matchSum ("xyzuv".data) ("uvwwxywz".data) (bPopular ("uvwwxywz".data)) (fun _ => false)
        (("xyzuv".data).length + ("uvwwxywz".data).length + 1) 0 (("xyzuv".data).length) 0
        (("uvwwxywz".data).length) = 3 from by decide]
  norm_num

theorem cand_eval_c7 : cfCandidates exP7 exL7 0 = [(6 / 13, 0, 0)] := by
  unfold cfCandidates exP7 exL7
  simp only [List.length_cons, List.length_nil, List.range_succ, List.range_zero,
    List.nil_append, List.cons_append, List.flatMap_cons, List.flatMap_nil,
    List.filterMap_cons, List.filterMap_nil,
    List.getD_cons_zero, List.getD_cons_succ, lB7, pB7]
  rw [sim_c7]
  norm_num

theorem state_eval_c7 : cfState exP7 exL7 0 = ([0], [0], [(0, 0, 6 / 13)]) := by
  unfold cfState cfSorted
  rw [cand_eval_c7]
  rfl

/-- Python `int()` truncation of the MODIFIED score at similarity 6/13. -/
theorem score_c7 : max (intTrunc ((1 - (6 / 13 : ℚ)) * 100)) 5 = 53 := by
  rw [show ((1 : ℚ) - 6 / 13) * 100 = 700 / 13 by norm_num]
  rw [intTrunc, if_pos (by norm_num)]
  rw [show ⌊(700 / 13 : ℚ)⌋ = 53 by rw [Int.floor_eq_iff] <;> norm_num]
  decide

/-- The percent figure rendered in the explanation string. -/
theorem pct_c7 : specRound ((6 / 13 : ℚ) * 100) = 46 := by
  unfold specRound
  rw [show ((6 : ℚ) / 13) * 100 = 600 / 13 by norm_num]
  rw [show ⌊(600 / 13 : ℚ)⌋ = 46 by rw [Int.floor_eq_iff] <;> norm_num]
  norm_num

/-- The rounding the spec claims would give 54 at similarity 6/13. -/
theorem round54_c7 : specRound ((1 - (6 / 13 : ℚ)) * 100) = 54 := by
  unfold specRound
  rw [show ((1 : ℚ) - 6 / 13) * 100 = 700 / 13 by norm_num]
  rw [show ⌊(700 / 13 : ℚ)⌋ = 53 by rw [Int.floor_eq_iff] <;> norm_num]
  norm_num

theorem matched_eval_c7 : cfMatches exP7 exL7 0 = [(0, 0, 6 / 13)] := by
  unfold cfMatches
  rw [state_eval_c7]

theorem new_eval_c7 : cfNew exP7 exL7 0 = [] := by
  unfold cfNew cfMatchedL
  rw [state_eval_c7]
  decide

theorem rem_eval_c7 : cfRemoved exP7 exL7 0 = [] := by
  unfold cfRemoved cfMatchedP
  rw [state_eval_c7]
  decide

theorem changes_eval_c7 : cfChanges exP7 exL7 0 1 = [c7rec] := by
  unfold cfChanges
  rw [new_eval_c7, rem_eval_c7, matched_eval_c7]
  simp only [List.map_nil, List.nil_append, List.filter_cons, List.filter_nil,
    decide_eq_true_eq]
  rw [if_pos (by norm_num : ((6 : ℚ) / 13 < 1))]
  simp only [List.map_cons, List.map_nil, List.getD_cons_zero, lB7, pB7]
  rw [show (max (intTrunc ((1 - (6 / 13 : ℚ)) * 100)) 5) = 53 from score_c7, pct_c7]
  rfl

theorem cf_eval_c7 : compare_filings exP7 exL7 0 1 15 = [c7rec] := by
  unfold compare_filings
  rw [changes_eval_c7]
  rfl

/-- C7 (amended): every MODIFIED record carries
`change_score = max(int((1 - similarity) * 100), 5)` for its matched pair —
truncation toward zero, floored at 5, hence never zero. -/
theorem modified_score_floor_min (prior latest : List Block) (thr idThr : ℚ)
    (topn : Nat) :
    ∀ c ∈ compare_filings prior latest thr idThr topn,
      c.change_type = ("MODIFIED".data) →
      (∃ m ∈ cfMatches prior latest thr,
        m.2.2 < idThr ∧ c.change_score = max (intTrunc ((1 - m.2.2) * 100)) 5) ∧
      (5 : ℤ) ≤ c.change_score := by
  intro c hc hty
  have hc1 : c ∈ List.insertionSort changeLe (cfChanges prior latest thr idThr) :=
    List.take_subset _ _ hc
  have hc2 : c ∈ cfChanges prior latest thr idThr :=
    (List.perm_insertionSort changeLe _).mem_iff.mp hc1
  unfold cfChanges at hc2
  rcases List.mem_append.mp hc2 with h12 | hmod
  · rcases List.mem_append.mp h12 with hnew | hrem
    · obtain ⟨i, _, hrec⟩ := List.mem_map.mp hnew
      rw [← hrec] at hty
      have hbad : ("NEW".data : Str) = ("MODIFIED".data) := hty
      exact absurd hbad (by decide)
    · obtain ⟨j, _, hrec⟩ := List.mem_map.mp hrem
      rw [← hrec] at hty
      have hbad : ("REMOVED".data : Str) = ("MODIFIED".data) := hty
      exact absurd hbad (by decide)
  · obtain ⟨m, hmem, hrec⟩ := List.mem_map.mp hmod
    have hm2 := List.mem_filter.mp hmem
    refine ⟨⟨m, hm2.1, by simpa using hm2.2, ?_⟩, ?_⟩
    · rw [← hrec]
    · rw [← hrec]
      exact le_max_right _ _

/-- Witness for the amended C7 at the concrete 6/13 example. -/
theorem modified_score_floor_min_witness :
    (∃ m ∈ cfMatches exP7 exL7 0,
      m.2.2 < 1 ∧ c7rec.change_score = max (intTrunc ((1 - m.2.2) * 100)) 5) ∧
    (5 : ℤ) ≤ c7rec.change_score :=
  modified_score_floor_min exP7 exL7 0 1 15 c7rec
    (by rw [cf_eval_c7]; exact List.mem_cons_self _ _) rfl

/-- C7 counterexample: at similarity 6/13 the produced MODIFIED score is 53
(truncation), while the claimed `round((1 - sim) * 100)` would be 54. -/
theorem modified_score_truncates_counterexample :
    (compare_filings exP7 exL7 0 1 15).map (fun c => (c.change_type, c.change_score))
      = [(("MODIFIED".data), 53)] ∧
    _similarity ("xyzuv".data) ("uvwwxywz".data) = 6 / 13 ∧
    specRound ((1 - (6 / 13 : ℚ)) * 100) = 54 ∧ (53 : ℤ) ≠ 54 := by
  refine ⟨?_, sim_c7, round54_c7, by decide⟩
  rw [cf_eval_c7]
  rfl

/-- The difflib ratio of the two C3 block texts is exactly 2/3. -/
theorem ratio_cr : ratioQ ("abcdxy".data) ("abcdef".data) = 2 / 3 := by
  unfold ratioQ
  rw [show matchSum ("abcdxy".data) ("abcdef".data) (bPopular ("abcdef".data)) (fun _ => false)
        (("abcdxy".data).length + ("abcdef".data).length + 1) 0 (("abcdxy".data).length) 0
        (("abcdef".data).length) = 4 from by decide]
  norm_num

theorem score33 : intTrunc ((1 - (2 / 3 : ℚ)) * 100) = 33 := by
  rw [show ((1 : ℚ) - 2 / 3) * 100 = 100 / 3 by norm_num]
  rw [intTrunc, if_pos (by norm_num)]
  rw [Int.floor_eq_iff] <;> norm_num

theorem bm_a : _best_match lA3 exP3 = (2 / 3, some pB3) := by
  unfold _best_match exP3
  simp only [List.foldl_cons, List.foldl_nil, lA3, pB3]
  rw [show _normalize ("abcdxy".data) = ("abcdxy".data) from rfl,
      show _normalize ("abcdef".data) = ("abcdef".data) from rfl, ratio_cr]
  norm_num

theorem bm_b : _best_match lB3 exP3 = (2 / 3, some pB3) := by
  unfold _best_match exP3
  simp only [List.foldl_cons, List.foldl_nil, lB3, pB3]
  rw [show _normalize ("abcdxy".data) = ("abcdxy".data) from rfl,
      show _normalize ("abcdef".data) = ("abcdef".data) from rfl, ratio_cr]
  norm_num

theorem fp_eval : crFirstPass exL3 exP3 = [cr3a, cr3b] := by
  unfold crFirstPass exL3
  simp only [List.filterMap_cons, List.filterMap_nil, bm_a, bm_b]
  simp only [if_neg (show ¬ ((2 : ℚ) / 3 < 11 / 20) by norm_num),
    if_pos (show ((2 : ℚ) / 3 < 17 / 20) by norm_num)]
  simp only [lA3, lB3, pB3, score33]
  rfl

theorem up_eval : crUsedPrior exL3 exP3 = [("p0".data), ("p0".data)] := by
  unfold crUsedPrior exL3
  simp only [List.filterMap_cons, List.filterMap_nil, bm_a, bm_b]
  simp only [if_neg (show ¬ ((2 : ℚ) / 3 < 11 / 20) by norm_num)]
  rfl

theorem rm_eval : crRemoved exL3 exP3 = [] := by
  unfold crRemoved
  simp only [up_eval]
  rfl

theorem cr_eval : compare_reports exL3 exP3 = [cr3a, cr3b] := by
  unfold compare_reports
  rw [fp_eval, rm_eval]
  rfl

/-- C3 counterexample: `compare_reports` emits two MODIFIED records that both
reference the one and only prior block, so a prior block index appears in two
output records. -/
theorem compare_reports_duplicate_prior_counterexample :
    compare_reports exL3 exP3 = [cr3a, cr3b] ∧
    cr3a.prior_block_id = some ("p0".data) ∧
    cr3b.prior_block_id = some ("p0".data) ∧
    exP3.length = 1 ∧ ¬ cr3a = cr3b := by
  refine ⟨cr_eval, rfl, rfl, rfl, by decide⟩

/-! Lemmas about the difflib run DP on identical inputs, leading to
`ratio(A, A) = 1`. -/

/-- A cell with a positive run is itself accepted. -/
theorem runLen_pos_va (va : Nat → Nat → Bool) :
    ∀ i j, 0 < runLen va i j → va i j = true := by
  intro i j h
  match i, j with
  | 0, j =>
    rw [runLen] at h
    by_cases hv : va 0 j = true
    · exact hv
    · rw [if_neg hv] at h; omega
  | i + 1, 0 =>
    rw [runLen] at h
    by_cases hv : va (i + 1) 0 = true
    · exact hv
    · rw [if_neg hv] at h; omega
  | i + 1, j + 1 =>
    rw [runLen] at h
    by_cases hv : va (i + 1) (j + 1) = true
    · exact hv
    · rw [if_neg hv] at h; omega

/-- A rejected cell has run zero. -/
theorem runLen_eq_zero (va : Nat → Nat → Bool) (i j : Nat) (h : ¬ va i j = true) :
    runLen va i j = 0 := by
  match i, j with
  | 0, j => rw [runLen, if_neg h]
  | i + 1, 0 => rw [runLen, if_neg h]
  | i + 1, j + 1 => rw [runLen, if_neg h]

/-- Runs are bounded by the coordinates. -/
theorem runLen_le_coord (va : Nat → Nat → Bool) :
    ∀ i j, runLen va i j ≤ i + 1 ∧ runLen va i j ≤ j + 1 := by
  intro i
  induction i with
  | zero =>
    intro j
    rw [runLen]
    by_cases hv : va 0 j = true
    · rw [if_pos hv]; omega
    · rw [if_neg hv]; omega
  | succ n ih =>
    intro j
    cases j with
    | zero =>
      rw [runLen]
      by_cases hv : va (n + 1) 0 = true
      · rw [if_pos hv]; omega
      · rw [if_neg hv]; omega
    | succ m =>
      rw [runLen]
      by_cases hv : va (n + 1) (m + 1) = true
      · rw [if_pos hv]
        have := ih m
        omega
      · rw [if_neg hv]; omega

/-- The first cell of a positive run is accepted. -/
theorem runLen_first_va (va : Nat → Nat → Bool) :
    ∀ i j, 0 < runLen va i j →
      va (i + 1 - runLen va i j) (j + 1 - runLen va i j) = true := by
  intro i
  induction i with
  | zero =>
    intro j h
    have hv := runLen_pos_va va 0 j h
    rw [runLen, if_pos hv] at h ⊢
    simpa using hv
  | succ n ih =>
    intro j h
    have hv := runLen_pos_va va (n + 1) j h
    cases j with
    | zero =>
      rw [runLen, if_pos hv]
      simpa using hv
    | succ m =>
      rw [runLen, if_pos hv]
      by_cases hz : 0 < runLen va n m
      · have hle := runLen_le_coord va n m
        have := ih m hz
        have h1 : n + 1 + 1 - (runLen va n m + 1) = n + 1 - runLen va n m := by omega
        have h2 : m + 1 + 1 - (runLen va n m + 1) = m + 1 - runLen va n m := by omega
        rw [h1, h2]
        exact this
      · have hz0 : runLen va n m = 0 := by omega
        rw [hz0]
        simpa using hv

/-- On a transfer-closed acceptance predicate, the run at `(i, j)` is at most
the diagonal run at `(i, i)`. -/
theorem runLen_le_diag_left (va : Nat → Nat → Bool)
    (hva : ∀ i j, va i j = true → va i i = true ∧ va j j = true) :
    ∀ i j, runLen va i j ≤ runLen va i i := by
  intro i
  induction i with
  | zero =>
    intro j
    by_cases hv : va 0 j = true
    · rw [runLen, if_pos hv, runLen, if_pos (hva 0 j hv).1]
    · rw [runLen_eq_zero va 0 j hv]; omega
  | succ n ih =>
    intro j
    cases j with
    | zero =>
      by_cases hv : va (n + 1) 0 = true
      · rw [runLen, if_pos hv, runLen, if_pos (hva _ _ hv).1]
        omega
      · rw [runLen_eq_zero va _ _ hv]; omega
    | succ m =>
      by_cases hv : va (n + 1) (m + 1) = true
      · rw [runLen, if_pos hv, runLen, if_pos (hva _ _ hv).1]
        have := ih m
        omega
      · rw [runLen_eq_zero va _ _ hv]; omega

/-- On a transfer-closed acceptance predicate, the run at `(i, j)` is at most
the diagonal run at `(j, j)`. -/
theorem runLen_le_diag_right (va : Nat → Nat → Bool)
    (hva : ∀ i j, va i j = true → va i i = true ∧ va j j = true) :
    ∀ i j, runLen va i j ≤ runLen va j j := by
  intro i
  induction i with
  | zero =>
    intro j
    by_cases hv : va 0 j = true
    · have hjj := (hva 0 j hv).2
      rw [runLen, if_pos hv]
      match j, hjj with
      | 0, hjj => rw [runLen, if_pos hjj]
      | m + 1, hjj => rw [runLen, if_pos hjj]; omega
    · rw [runLen_eq_zero va 0 j hv]; omega
  | succ n ih =>
    intro j
    cases j with
    | zero =>
      by_cases hv : va (n + 1) 0 = true
      · rw [show runLen va (n + 1) 0 = 1 from by rw [runLen, if_pos hv],
          show runLen va 0 0 = 1 from by rw [runLen, if_pos (hva _ _ hv).2]]
      · rw [runLen_eq_zero va _ _ hv]; omega
    | succ m =>
      by_cases hv : va (n + 1) (m + 1) = true
      · rw [show runLen va (n + 1) (m + 1) = runLen va n m + 1 from by
            rw [runLen, if_pos hv],
          show runLen va (m + 1) (m + 1) = runLen va m m + 1 from by
            rw [runLen, if_pos (hva _ _ hv).2]]
        have := ih m
        omega
      · rw [runLen_eq_zero va _ _ hv]; omega

/-- Row invariant of the best-block scan on a transfer-closed predicate: the
best triple stays diagonal and in bounds, its size only grows and dominates
every run in already-scanned rows and, after the row, every run in the row. -/
theorem dpRow_inv (va : Nat → Nat → Bool)
    (hva : ∀ i j, va i j = true → va i i = true ∧ va j j = true)
    (lo hi : Nat)
    (hbnd : ∀ i j, va i j = true → lo ≤ i ∧ i < hi ∧ lo ≤ j ∧ j < hi)
    (r : Nat) :
    ∀ (L : List Nat) (best : Nat × Nat × Nat),
      (∀ j ∈ L, va r j = true) →
      L.Pairwise (· < ·) →
      (∀ j, ¬ j ∈ L → runLen va r j ≤ best.2.2) →
      (∀ i j, i < r → runLen va i j ≤ best.2.2) →
      best.1 = best.2.1 →
      ((best.2.2 = 0 ∧ best.1 = lo ∧ best.2.1 = lo) ∨
        (0 < best.2.2 ∧ lo ≤ best.1 ∧ best.1 + best.2.2 ≤ hi)) →
      ((L.foldl (dpStep va r) best).1 = (L.foldl (dpStep va r) best).2.1 ∧
       (((L.foldl (dpStep va r) best).2.2 = 0 ∧ (L.foldl (dpStep va r) best).1 = lo ∧
          (L.foldl (dpStep va r) best).2.1 = lo) ∨
        (0 < (L.foldl (dpStep va r) best).2.2 ∧ lo ≤ (L.foldl (dpStep va r) best).1 ∧
          (L.foldl (dpStep va r) best).1 + (L.foldl (dpStep va r) best).2.2 ≤ hi)) ∧
       best.2.2 ≤ (L.foldl (dpStep va r) best).2.2 ∧
       (∀ i j, i < r → runLen va i j ≤ (L.foldl (dpStep va r) best).2.2) ∧
       (∀ j, ¬ j ∈ ([] : List Nat) → runLen va r j ≤ (L.foldl (dpStep va r) best).2.2)) := by
  intro L
  induction L with
  | nil =>
    intro best hL hpair hdone hprev hdiag hB
    exact ⟨hdiag, hB, le_refl _, hprev, fun j hj => hdone j (by simp)⟩
  | cons c L' ih =>
    intro best hL hpair hdone hprev hdiag hB
    have hvac : va r c = true := hL c (List.mem_cons_self _ _)
    rw [List.foldl_cons]
    by_cases hk : best.2.2 < runLen va r c
    · have hstep : dpStep va r best c =
          (r + 1 - runLen va r c, c + 1 - runLen va r c, runLen va r c) := by
        simp only [dpStep]
        rw [if_pos hk]
      have hrc : r = c := by
        rcases Nat.lt_trichotomy r c with h | h | h
        · have h1 : runLen va r c ≤ runLen va r r := runLen_le_diag_left va hva r c
          have hnot : ¬ r ∈ c :: L' := by
            intro hm
            rcases List.mem_cons.mp hm with he | ht
            · omega
            · have := List.rel_of_pairwise_cons hpair ht
              omega
          have h2 := hdone r hnot
          omega
        · exact h
        · have h1 : runLen va r c ≤ runLen va c c := runLen_le_diag_right va hva r c
          have h2 := hprev c c h
          omega
      subst hrc
      rw [hstep]
      have hkpos : 0 < runLen va r r := by omega
      have hfirst := runLen_first_va va r r hkpos
      have hfb := hbnd _ _ hfirst
      have hcoord := runLen_le_coord va r r
      have hrhi : r < hi := (hbnd _ _ hvac).2.1
      have hres := ih (r + 1 - runLen va r r, r + 1 - runLen va r r, runLen va r r)
        (fun j hj => hL j (List.mem_cons_of_mem _ hj))
        (List.Pairwise.sublist (List.sublist_cons_self _ _) hpair)
        ?_ ?_ rfl ?_
      · exact ⟨hres.1, hres.2.1, le_trans (le_of_lt hk) hres.2.2.1,
          hres.2.2.2.1, hres.2.2.2.2⟩
      · intro j hj
        by_cases hjc : j = r
        · subst hjc; exact le_refl _
        · have : ¬ j ∈ r :: L' := by
            intro hm
            rcases List.mem_cons.mp hm with he | ht
            · exact hjc he
            · exact hj ht
          exact le_trans (hdone j this) (le_of_lt hk)
      · intro i j hi
        exact le_trans (hprev i j hi) (le_of_lt hk)
      · right
        refine ⟨hkpos, hfb.1, ?_⟩
        show (r + 1 - runLen va r r) + runLen va r r ≤ hi
        omega
    · have hstep : dpStep va r best c = best := by
        simp only [dpStep]
        rw [if_neg hk]
      rw [hstep]
      refine ih best (fun j hj => hL j (List.mem_cons_of_mem _ hj))
        (List.Pairwise.sublist (List.sublist_cons_self _ _) hpair) ?_ hprev hdiag hB
      intro j hj
      by_cases hjc : j = c
      · subst hjc; omega
      · refine hdone j ?_
        intro hm
        rcases List.mem_cons.mp hm with he | ht
        · exact hjc he
        · exact hj ht

/-- Scan invariant over the rows of `find_longest_match` on a transfer-closed
predicate: the final best triple is diagonal, in bounds, and dominates every
run in the scanned row range. -/
theorem dpScan_inv (va : Nat → Nat → Bool)
    (hva : ∀ i j, va i j = true → va i i = true ∧ va j j = true)
    (lo hi : Nat)
    (hbnd : ∀ i j, va i j = true → lo ≤ i ∧ i < hi ∧ lo ≤ j ∧ j < hi) :
    ∀ (n r : Nat) (best : Nat × Nat × Nat),
      (∀ i j, i < r → runLen va i j ≤ best.2.2) →
      best.1 = best.2.1 →
      ((best.2.2 = 0 ∧ best.1 = lo ∧ best.2.1 = lo) ∨
        (0 < best.2.2 ∧ lo ≤ best.1 ∧ best.1 + best.2.2 ≤ hi)) →
      ((dpScan va (List.range' r n) hi best).1 = (dpScan va (List.range' r n) hi best).2.1 ∧
       (((dpScan va (List.range' r n) hi best).2.2 = 0 ∧
          (dpScan va (List.range' r n) hi best).1 = lo ∧
          (dpScan va (List.range' r n) hi best).2.1 = lo) ∨
        (0 < (dpScan va (List.range' r n) hi best).2.2 ∧
          lo ≤ (dpScan va (List.range' r n) hi best).1 ∧
          (dpScan va (List.range' r n) hi best).1 +
            (dpScan va (List.range' r n) hi best).2.2 ≤ hi)) ∧
       (∀ i j, i < r + n → runLen va i j ≤ (dpScan va (List.range' r n) hi best).2.2)) := by
  intro n
  induction n with
  | zero =>
    intro r best hprev hdiag hB
    refine ⟨hdiag, hB, ?_⟩
    intro i j hi2
    exact hprev i j (by omega)
  | succ m ih =>
    intro r best hprev hdiag hB
    rw [List.range'_succ]
    unfold dpScan
    rw [List.foldl_cons]
    have hrow := dpRow_inv va hva lo hi hbnd r
      ((List.range hi).filter (fun j => va r j)) best
      (fun j hj => (List.mem_filter.mp hj).2)
      (List.Pairwise.sublist (List.filter_sublist _) (List.pairwise_lt_range hi))
      ?_ hprev hdiag hB
    · have hres := ih (r + 1) (dpRow va hi best r) ?_ hrow.1 hrow.2.1
      · refine ⟨hres.1, hres.2.1, ?_⟩
        intro i j hi2
        exact hres.2.2 i j (by omega)
      · intro i j hi2
        by_cases hir : i < r
        · exact hrow.2.2.2.1 i j hir
        · have hieq : i = r := by omega
          subst hieq
          exact hrow.2.2.2.2 j (by simp)
    · intro j hj
      by_cases hv : va r j = true
      · have hjhi : j < hi := (hbnd _ _ hv).2.2.2
        exact absurd (List.mem_filter.mpr ⟨List.mem_range.mpr hjhi, hv⟩) hj
      · rw [runLen_eq_zero va r j hv]
        omega

/-- The backward extension from a diagonal block with `alo = blo` stays
diagonal, stays at or above `lo`, never moves the start up, and preserves
`start + size`. -/
theorem extBack_diag (cond : Nat → Nat → Bool) (lo : Nat) :
    ∀ bi bk, lo ≤ bi →
      ((extBack cond lo lo bi bi bk).1 = (extBack cond lo lo bi bi bk).2.1 ∧
       lo ≤ (extBack cond lo lo bi bi bk).1 ∧
       (extBack cond lo lo bi bi bk).1 ≤ bi ∧
       (extBack cond lo lo bi bi bk).1 + (extBack cond lo lo bi bi bk).2.2 = bi + bk) := by
  intro bi
  induction bi with
  | zero =>
    intro bk hlo
    exact ⟨rfl, hlo, Nat.le_refl 0, rfl⟩
  | succ n ih =>
    intro bk hlo
    rw [extBack]
    simp only [Nat.add_sub_cancel]
    by_cases hc : (decide (lo ≤ n) && decide (lo < n + 1) && cond n n) = true
    · rw [if_pos hc]
      have hlon : lo ≤ n := by
        have := hc
        simp only [Bool.and_eq_true, decide_eq_true_eq] at this
        exact this.1.1
      obtain ⟨h1, h2, h3, h4⟩ := ih (bk + 1) hlon
      exact ⟨h1, h2, Nat.le_succ_of_le h3, by omega⟩
    · rw [if_neg hc]
      exact ⟨rfl, hlo, Nat.le_refl _, rfl⟩

/-- The backward extension never fires when the block already starts at the
lower bound. -/
theorem extBack_at_lo (cond : Nat → Nat → Bool) (lo bk : Nat) :
    extBack cond lo lo lo lo bk = (lo, lo, bk) := by
  cases lo with
  | zero => rfl
  | succ n =>
    rw [extBack]
    rw [decide_eq_false (show ¬ (n + 1 ≤ n) by omega)]
    simp

/-- The backward extension with an always-false condition is the identity. -/
theorem extBack_false (alo blo : Nat) :
    ∀ bi bj bk, extBack (fun _ _ => false) alo blo bi bj bk = (bi, bj, bk) := by
  intro bi bj bk
  cases bi with
  | zero => rfl
  | succ n =>
    rw [extBack]
    simp

/-- The forward extension never shrinks the block. -/
theorem extFwd_mono (cond : Nat → Nat → Bool) (ahi bhi bi bj : Nat) :
    ∀ fuel bk, bk ≤ extFwd cond ahi bhi bi bj fuel bk := by
  intro fuel
  induction fuel with
  | zero => intro bk; exact Nat.le_refl bk
  | succ n ih =>
    intro bk
    rw [extFwd]
    by_cases hc : (decide (bi + bk < ahi) && decide (bj + bk < bhi) && cond (bi + bk) (bj + bk)) = true
    · rw [if_pos hc]
      exact Nat.le_trans (Nat.le_succ bk) (ih (bk + 1))
    · rw [if_neg hc]

/-- The forward extension keeps `bi + size` within `ahi`. -/
theorem extFwd_bound (cond : Nat → Nat → Bool) (ahi bhi bi bj : Nat) :
    ∀ fuel bk, bi + bk ≤ ahi → bi + extFwd cond ahi bhi bi bj fuel bk ≤ ahi := by
  intro fuel
  induction fuel with
  | zero => intro bk h; exact h
  | succ n ih =>
    intro bk h
    rw [extFwd]
    by_cases hc : (decide (bi + bk < ahi) && decide (bj + bk < bhi) && cond (bi + bk) (bj + bk)) = true
    · rw [if_pos hc]
      have hlt : bi + bk < ahi := by
        have := hc
        simp only [Bool.and_eq_true, decide_eq_true_eq] at this
        exact this.1.1
      exact ih (bk + 1) (by omega)
    · rw [if_neg hc]
      exact h

/-- The forward extension is the identity when the `a`-side bound is already
reached. -/
theorem extFwd_stuck (cond : Nat → Nat → Bool) (ahi bhi bi bj fuel bk : Nat)
    (h : ¬ bi + bk < ahi) : extFwd cond ahi bhi bi bj fuel bk = bk := by
  cases fuel with
  | zero => rfl
  | succ n =>
    rw [extFwd]
    rw [decide_eq_false h]
    simp

/-- The forward extension with an always-false condition is the identity. -/
theorem extFwd_false (ahi bhi bi bj fuel bk : Nat) :
    extFwd (fun _ _ => false) ahi bhi bi bj fuel bk = bk := by
  cases fuel with
  | zero => rfl
  | succ n =>
    rw [extFwd]
    simp

/-- One firing step of the forward extension. -/
theorem extFwd_fire (cond : Nat → Nat → Bool) (ahi bhi bi bj fuel bk : Nat)
    (h : (decide (bi + bk < ahi) && decide (bj + bk < bhi) && cond (bi + bk) (bj + bk)) = true) :
    extFwd cond ahi bhi bi bj (fuel + 1) bk = extFwd cond ahi bhi bi bj fuel (bk + 1) := by
  rw [extFwd, if_pos h]

/-- Unfolding of the cell predicate on a self-comparison. -/
theorem vaMatch_self_iff (a : Str) (bpop : Char → Bool) (lo hi i j : Nat) :
    vaMatch a a bpop lo hi lo hi i j = true ↔
      (lo ≤ i ∧ i < hi ∧ lo ≤ j ∧ j < hi ∧
        a.getD i ' ' = a.getD j ' ' ∧ bpop (a.getD j ' ') = false) := by
  unfold vaMatch
  simp [Bool.and_eq_true, decide_eq_true_eq, and_assoc, Bool.not_eq_true']

/-- `find_longest_match` on a self-comparison returns a diagonal block: on an
empty region it is `(lo, lo, 0)`, and on a nonempty region it is a nonempty
in-bounds block with equal `a`- and `b`-side starts. -/
theorem flm_self (a : Str) (lo hi : Nat) :
    (findLongestMatch a a (bPopular a) (fun _ => false) lo hi lo hi).1 =
      (findLongestMatch a a (bPopular a) (fun _ => false) lo hi lo hi).2.1 ∧
    (hi ≤ lo → findLongestMatch a a (bPopular a) (fun _ => false) lo hi lo hi = (lo, lo, 0)) ∧
    (lo < hi →
      0 < (findLongestMatch a a (bPopular a) (fun _ => false) lo hi lo hi).2.2 ∧
      lo ≤ (findLongestMatch a a (bPopular a) (fun _ => false) lo hi lo hi).1 ∧
      (findLongestMatch a a (bPopular a) (fun _ => false) lo hi lo hi).1 +
        (findLongestMatch a a (bPopular a) (fun _ => false) lo hi lo hi).2.2 ≤ hi) := by
  have hva : ∀ i j, vaMatch a a (bPopular a) lo hi lo hi i j = true →
      vaMatch a a (bPopular a) lo hi lo hi i i = true ∧
      vaMatch a a (bPopular a) lo hi lo hi j j = true := by
    intro i j h
    rw [vaMatch_self_iff] at h
    obtain ⟨h1, h2, h3, h4, h5, h6⟩ := h
    constructor
    · rw [vaMatch_self_iff]
      exact ⟨h1, h2, h1, h2, rfl, by rw [h5]; exact h6⟩
    · rw [vaMatch_self_iff]
      exact ⟨h3, h4, h3, h4, rfl, h6⟩
  have hbnd : ∀ i j, vaMatch a a (bPopular a) lo hi lo hi i j = true →
      lo ≤ i ∧ i < hi ∧ lo ≤ j ∧ j < hi := by
    intro i j h
    rw [vaMatch_self_iff] at h
    exact ⟨h.1, h.2.1, h.2.2.1, h.2.2.2.1⟩
  have hprev : ∀ i j, i < lo →
      runLen (vaMatch a a (bPopular a) lo hi lo hi) i j ≤ ((lo, lo, 0) : Nat × Nat × Nat).2.2 := by
    intro i j hij
    have hf : ¬ vaMatch a a (bPopular a) lo hi lo hi i j = true := by
      intro ht
      rw [vaMatch_self_iff] at ht
      exact absurd ht.1 (by omega)
    rw [runLen_eq_zero _ _ _ hf]
  have hscan := dpScan_inv (vaMatch a a (bPopular a) lo hi lo hi) hva lo hi hbnd
      (hi - lo) lo (lo, lo, 0) hprev rfl (Or.inl ⟨rfl, rfl, rfl⟩)
  unfold findLongestMatch
  simp only [Bool.not_false, Bool.true_and, Bool.false_and]
  generalize hBdef : dpScan (vaMatch a a (bPopular a) lo hi lo hi)
      (List.range' lo (hi - lo)) hi (lo, lo, 0) = B
  rw [hBdef] at hscan
  obtain ⟨hBdiag, hBdisj, -⟩ := hscan
  obtain ⟨bi, bj, bk⟩ := B
  dsimp only at hBdiag hBdisj ⊢
  subst hBdiag
  simp only [extBack_false, extFwd_false]
  rcases hBdisj with ⟨hk0, hbi, -⟩ | ⟨hkpos, hlobi, hbik⟩
  · subst hk0
    rw [hbi]
    rw [extBack_at_lo]
    dsimp only
    refine ⟨rfl, ?_, ?_⟩
    · intro h
      rw [extFwd_stuck _ _ _ _ _ _ _ (by omega)]
    · intro h
      have hfire : (decide (lo + 0 < hi) && decide (lo + 0 < hi) &&
          (a.getD (lo + 0) ' ' == a.getD (lo + 0) ' ')) = true := by
        simp [h]
      rw [extFwd_fire _ _ _ _ _ _ _ hfire]
      refine ⟨Nat.lt_of_lt_of_le (by omega) (extFwd_mono _ _ _ _ _ _ 1), Nat.le_refl _, ?_⟩
      exact extFwd_bound _ _ _ _ _ _ 1 (by omega)
  · have hb1 := extBack_diag (fun i j => a.getD i ' ' == a.getD j ' ') lo bi bk hlobi
    generalize hb1def : extBack (fun i j => a.getD i ' ' == a.getD j ' ') lo lo bi bi bk = b1
      at hb1 ⊢
    obtain ⟨c1, c2, ck⟩ := b1
    dsimp only at hb1 ⊢
    obtain ⟨hcdiag, hloc, hcbi, hsum⟩ := hb1
    subst hcdiag
    refine ⟨rfl, ?_, ?_⟩
    · intro h
      exact absurd h (by omega)
    · intro h
      refine ⟨Nat.lt_of_lt_of_le (by omega) (extFwd_mono _ _ _ _ _ _ ck), hloc, ?_⟩
      exact extFwd_bound _ _ _ _ _ _ ck (by omega)

/-- With enough fuel, the matching blocks of a self-comparison cover the
whole region: their total size is `hi - lo`. -/
theorem matchSum_self (a : Str) :
    ∀ fuel lo hi, hi - lo ≤ fuel →
      matchSum a a (bPopular a) (fun _ => false) fuel lo hi lo hi = hi - lo := by
  intro fuel
  induction fuel with
  | zero =>
    intro lo hi h
    rw [matchSum]
    omega
  | succ n ih =>
    intro lo hi h
    obtain ⟨hdiag, hle, hlt⟩ := flm_self a lo hi
    rw [matchSum]
    by_cases hord : lo < hi
    · obtain ⟨hkpos, hloi, hik⟩ := hlt hord
      generalize hF : findLongestMatch a a (bPopular a) (fun _ => false) lo hi lo hi = r
        at hdiag hkpos hloi hik ⊢
      obtain ⟨ri, rj, rk⟩ := r
      dsimp only at hdiag hkpos hloi hik ⊢
      subst hdiag
      rw [if_neg (by omega : ¬ rk = 0)]
      have hleft : (if (decide (lo < ri) && decide (lo < ri)) = true then
          matchSum a a (bPopular a) (fun _ => false) n lo ri lo ri else 0) = ri - lo := by
        by_cases h1 : lo < ri
        · rw [if_pos (by simp [h1])]
          exact ih lo ri (by omega)
        · rw [if_neg (by simp [h1])]
          omega
      have hright : (if (decide (ri + rk < hi) && decide (ri + rk < hi)) = true then
          matchSum a a (bPopular a) (fun _ => false) n (ri + rk) hi (ri + rk) hi else 0) =
          hi - (ri + rk) := by
        by_cases h2 : ri + rk < hi
        · rw [if_pos (by simp [h2])]
          exact ih (ri + rk) hi (by omega)
        · rw [if_neg (by simp [h2])]
          omega
      rw [hleft, hright]
      omega
    · rw [hle (by omega)]
      dsimp only
      rw [if_pos rfl]
      omega

/-- `ratio` of any sequence against itself is 1. -/
theorem ratioQ_self (a : Str) : ratioQ a a = 1 := by
  unfold ratioQ
  simp only []
  by_cases h : a.length + a.length = 0
  · rw [if_pos h]
  · rw [if_neg h]
    rw [matchSum_self a (a.length + a.length + 1) 0 a.length (by omega)]
    have hx : (a.length : ℚ) ≠ 0 := Nat.cast_ne_zero.mpr (by omega)
    rw [Nat.sub_zero]
    field_simp
    ring

/-- The similarity of the C7 block texts in the reverse argument order is
4/13, not 6/13. -/
theorem sim_c7_rev : _similarity ("uvwwxywz".data) ("xyzuv".data) = 4 / 13 := by
  unfold _similarity ratioQ
  rw [show List.map Char.toLower ("uvwwxywz".data) = ("uvwwxywz".data) from rfl,
      show List.map Char.toLower ("xyzuv".data) = ("xyzuv".data) from rfl,
      show matchSum ("uvwwxywz".data) ("xyzuv".data) (bPopular ("xyzuv".data)) (fun _ => false)
        (("uvwwxywz".data).length + ("xyzuv".data).length + 1) 0 (("uvwwxywz".data).length) 0
        (("xyzuv".data).length) = 2 from by decide]
  norm_num

/-- C4 counterexample: `_similarity` is not symmetric.  On the texts
"xyzuv" and "uvwwxywz" the two argument orders give 6/13 and 4/13
(`difflib.SequenceMatcher.ratio` depends on which sequence is second). -/
theorem similarity_not_symmetric_counterexample :
    _similarity ("xyzuv".data) ("uvwwxywz".data) = 6 / 13 ∧
    _similarity ("uvwwxywz".data) ("xyzuv".data) = 4 / 13 ∧
    _similarity ("xyzuv".data) ("uvwwxywz".data) ≠
      _similarity ("uvwwxywz".data) ("xyzuv".data) := by
  refine ⟨sim_c7, sim_c7_rev, ?_⟩
  rw [sim_c7, sim_c7_rev]
  norm_num

/-- C4 (amended): for every block text A the Diff Engine's similarity
satisfies `similarity(A, A) = 1`; the symmetry half of the original claim
is refuted separately. -/
theorem similarity_self (a : Str) : _similarity a a = 1 := by
  unfold _similarity
  exact ratioQ_self _
